import Mathlib

/-!
Verification of the NoisyZip core: a shallow embedding of the noisy ZIP
writer (src/internal/core/noise.go) and the heuristic recovery scanner
(src/decryptor.go), with theorems settling the frozen claims about the
natural-language specification.

Machine integers are modelled as `Nat` with explicit truncation (`% 2^16`,
`% 2^32`) exactly where the Go code casts, and byte sequences as `List Nat`
(each element a byte value).  Filesystem effects are made explicit: a file's
staged payload is carried inside the `Entry`, the random source is a byte
stream `Nat → Nat` consumed through an explicit cursor, and fallible steps
return `Option`/`Except`.
-/

set_option maxHeartbeats 4000000
set_option maxRecDepth 100000

namespace NoisyZip

/-! ## Model definitions (translated from the source, with the
claim-side layouts used by the refinement theorems) -/

/-- Little-endian encoding of the low 16 bits of `n`
(`binary.LittleEndian.PutUint16` after a Go `uint16` cast). -/
def le16 (n : Nat) : List Nat :=
  [n % 256, n / 256 % 256]

/-- Little-endian encoding of the low 32 bits of `n`
(`binary.LittleEndian.PutUint32` after a Go `uint32` cast). -/
def le32 (n : Nat) : List Nat :=
  [n % 256, n / 256 % 256, n / 65536 % 256, n / 16777216 % 256]

/-- One bit step of the reflected CRC-32 (polynomial `0xEDB88320`),
as computed by Go's `hash/crc32` IEEE table. -/
def crc32Bit (c : Nat) : Nat :=
  if c % 2 = 1 then Nat.xor (c / 2) 0xEDB88320 else c / 2

/-- Feed one byte into the running CRC-32 state. -/
def crc32Byte (c b : Nat) : Nat :=
  let c := Nat.xor c (b % 256)
  crc32Bit (crc32Bit (crc32Bit (crc32Bit (crc32Bit (crc32Bit (crc32Bit (crc32Bit c)))))))

/-- CRC-32 (IEEE, reflected) of a byte sequence, as `crc32.NewIEEE` computes it:
initial value `0xFFFFFFFF`, final XOR `0xFFFFFFFF`. -/
def crc32 (bs : List Nat) : Nat :=
  Nat.xor (bs.foldl crc32Byte 0xFFFFFFFF) 0xFFFFFFFF

/-- ZIP signatures and flag constants from `noise.go`. -/
def sigLocal : Nat := 0x04034b50

def sigCDir : Nat := 0x02014b50

def sigEOCD : Nat := 0x06054b50

def sigDD : Nat := 0x08074b50

def flagUTF8 : Nat := 2048

def flagDataDesc : Nat := 8

/-- One archive member as assembled by `noise.go`: the encoded name bytes, the
header fields, and the staged payload bytes (the contents the Go code keeps in
the entry's temp file). -/
structure Entry where
  name : List Nat
  flags : Nat
  method : Nat
  dosT : Nat
  dosD : Nat
  crc : Nat
  csize : Nat
  usize : Nat
  offset : Nat
  payload : List Nat
deriving Repr, DecidableEq

/-- `writeLocalHeader` from `noise.go`: the 30-byte local file header, with the
`crc`, `csize` and `usize` arguments supplied by the caller. -/
def writeLocalHeader (ent : Entry) (crc csize usize : Nat) : List Nat :=
  le32 sigLocal ++ le16 20 ++ le16 ent.flags ++ le16 ent.method ++
  le16 ent.dosT ++ le16 ent.dosD ++
  le32 crc ++ le32 csize ++ le32 usize ++ le16 ent.name.length ++ le16 0

/-- `writeCDir` from `noise.go`: the 46-byte central directory header. -/
def writeCDir (ent : Entry) : List Nat :=
  le32 sigCDir ++ le16 20 ++ le16 20 ++ le16 ent.flags ++ le16 ent.method ++
  le16 ent.dosT ++ le16 ent.dosD ++
  le32 ent.crc ++ le32 ent.csize ++ le32 ent.usize ++
  le16 ent.name.length ++ le16 0 ++ le16 0 ++ le16 0 ++ le16 0 ++ le32 0 ++
  le32 ent.offset

/-- `writeEOCD` from `noise.go`: the 22-byte end-of-central-directory record. -/
def writeEOCD (count cdSize cdStart commentSize : Nat) : List Nat :=
  le32 sigEOCD ++ le16 0 ++ le16 0 ++ le16 count ++ le16 count ++
  le32 cdSize ++ le32 cdStart ++ le16 commentSize

/-- `writeDataDesc` from `noise.go`: the 16-byte data descriptor. -/
def writeDataDesc (ent : Entry) : List Nat :=
  le32 sigDD ++ le32 ent.crc ++ le32 ent.csize ++ le32 ent.usize

/-- The bytes the random source yields at cursor positions `c, c+1, …, c+n-1`
(each masked to a byte, as `Read` fills a `[]byte`). -/
def streamBytes (s : Nat → Nat) (c n : Nat) : List Nat :=
  (List.range n).map (fun i => s (c + i) % 256)

/-- In-place overwrite of `repl.length` bytes of `out` starting at `off`
(models a `Seek`/`Write`/`Seek`-back sequence on the output file). -/
def patchBytes (out : List Nat) (off : Nat) (repl : List Nat) : List Nat :=
  out.take off ++ repl ++ out.drop (off + repl.length)

/-- `patchCRC` from `noise.go`: seek to `off+14` (the `crc32` field of the
local header written at `off`) and overwrite it with the true CRC. -/
def patchCRC (out : List Nat) (off crc : Nat) : List Nat :=
  patchBytes out (off + 14) (le32 crc)

/-- The body of `writeZip`'s per-entry loop: stamp bit 3 into the flags when
`overwrite` is set, record the local offset (`uint32` of the current output
length), write the local header (zeroed fields when `overwrite`), the name and
the payload, then — when `overwrite` — patch the CRC back into the local
header and append the data descriptor.  Returns the new output and the
updated entry (as the Go code mutates the slice element in place). -/
def writeOneEntry (overwrite : Bool) (out : List Nat) (e : Entry) :
    List Nat × Entry :=
  let e1 : Entry := { e with flags := e.flags ||| (if overwrite then flagDataDesc else 0) }
  let off : Nat := out.length % 2 ^ 32
  let e2 : Entry := { e1 with offset := off }
  let out1 : List Nat :=
    if overwrite then out ++ writeLocalHeader e2 0 0 0
    else out ++ writeLocalHeader e2 e2.crc e2.csize e2.usize
  let out2 : List Nat := out1 ++ e2.name ++ e2.payload
  let out3 : List Nat :=
    if overwrite then patchCRC out2 off e2.crc ++ writeDataDesc e2
    else out2
  (out3, e2)

/-- The local-file section of `writeZip`: fold `writeOneEntry` over the
entries, collecting the updated entries. -/
def writeLocals (overwrite : Bool) : List Nat → List Entry → List Nat × List Entry
  | out, [] => (out, [])
  | out, e :: es =>
      let (out1, e1) := writeOneEntry overwrite out e
      let (out2, es1) := writeLocals overwrite out1 es
      (out2, e1 :: es1)

/-- The central-directory section of `writeZip`: each 46-byte header followed
by the entry's name bytes. -/
def cdirBytes (ents : List Entry) : List Nat :=
  ents.foldr (fun e acc => writeCDir e ++ e.name ++ acc) []

/-- `writePoisonTail` from `noise.go`: 32 random bytes, a forged EOCD record,
then 96 more random bytes. -/
def writePoisonTail (s : Nat → Nat) (c : Nat) : List Nat :=
  streamBytes s c 32 ++
  (le32 sigEOCD ++ le16 0 ++ le16 0 ++ le16 0 ++ le16 0 ++
    le32 0xffffffff ++ le32 0x80000000 ++ le16 0) ++
  streamBytes s (c + 32) 96

/-- `writeZip` from `noise.go` as a pure function: local sections, central
directory, EOCD, optional random comment bytes, optional poison tail.  The
random source is the stream `s` read from cursor `c`; the returned cursor
reflects the bytes consumed. -/
def writeZip (s : Nat → Nat) (c : Nat) (entries : List Entry)
    (overwrite : Bool) (commentSize : Nat) : List Nat × Nat :=
  let (out, ents) := writeLocals overwrite [] entries
  let cdStart : Nat := out.length
  let out := out ++ cdirBytes ents
  let cdSize : Nat := out.length - cdStart
  let out := out ++ writeEOCD ents.length cdSize cdStart commentSize
  let (out, c) :=
    if commentSize > 0 then (out ++ streamBytes s c commentSize, c + commentSize)
    else (out, c)
  let (out, c) :=
    if overwrite then (out ++ writePoisonTail s c, c + 128)
    else (out, c)
  (out, c)

/-- `unicode.IsLetter` restricted to the character repertoire reachable in this
development: ASCII, the Latin-1 supplement, the CP437/CP866/CP1251 code-page
repertoires (Latin, Greek, Cyrillic) and `ⁿ` (U+207F).  Every range listed is
category L in Unicode; characters outside the listed ranges (never produced by
the three code-page decoders) are classified as non-letters. -/
def goIsLetter (c : Char) : Bool :=
  let n := c.toNat
  (65 ≤ n && n ≤ 90) || (97 ≤ n && n ≤ 122) ||
  n = 0xAA || n = 0xB5 || n = 0xBA ||
  (0xC0 ≤ n && n ≤ 0xFF && n ≠ 0xD7 && n ≠ 0xF7) ||
  n = 0x192 ||
  (0x391 ≤ n && n ≤ 0x3A9 && n ≠ 0x3A2) || (0x3B1 ≤ n && n ≤ 0x3C9) ||
  (0x400 ≤ n && n ≤ 0x481) || (0x48A ≤ n && n ≤ 0x4FF) ||
  n = 0x207F

/-- `unicode.IsDigit` on the reachable repertoire: only the ASCII digits are
category Nd there. -/
def goIsDigit (c : Char) : Bool :=
  48 ≤ c.toNat && c.toNat ≤ 57

/-- `unicode.IsPrint` on the reachable repertoire: true for the space and all
graphic characters, false for the C0/C1 controls, DEL, NBSP (U+00A0, a
separator Go does not print) and the soft hyphen (U+00AD, format). -/
def goIsPrint (c : Char) : Bool :=
  let n := c.toNat
  !(n < 0x20 || n = 0x7F || (0x80 ≤ n && n ≤ 0x9F) || n = 0xA0 || n = 0xAD)

/-- The punctuation set `" ._-()[]{}"` from `scoreName`
(`Char.ofNat 123` and `Char.ofNat 125` are the braces). -/
def scorePunct : List Char :=
  [' ', '.', '_', '-', '(', ')', '[', ']', Char.ofNat 123, Char.ofNat 125]

/-- Per-character contribution of `scoreName` from `decryptor.go`, including
the final `strings.ContainsRune("A?NA", ch)` clause that subtracts a further
2 from `A`, `?` and `N`. -/
def scoreChar (c : Char) : Int :=
  let n := c.toNat
  let base : Int :=
    if goIsLetter c || goIsDigit c then 2
    else if scorePunct.contains c then 1
    else if c = '/' || c = '\\' then 1
    else if c = '\t' || c = '\r' || c = '\n' then -5
    else if 0x2500 ≤ n && n ≤ 0x257F then -3
    else if n = 0xFFFD then -5
    else if goIsPrint c then 0
    else -3
  if c = 'A' || c = '?' || c = 'N' then base - 2 else base

/-- `scoreName` from `decryptor.go`: the per-character scores accumulated. -/
def scoreName (s : List Char) : Int :=
  (s.map scoreChar).sum

/-- The scoring heuristic exactly as the specification words it (claim C7):
letters/digits +2; space, `._-()[]` and the braces, and the slash characters
+1; tab/CR/LF and U+FFFD −5; box drawing −3; other printable 0;
non-printable −3 — with no further adjustment. -/
def specScoreChar (c : Char) : Int :=
  let n := c.toNat
  if goIsLetter c || goIsDigit c then 2
  else if scorePunct.contains c then 1
  else if c = '/' || c = '\\' then 1
  else if c = '\t' || c = '\r' || c = '\n' then -5
  else if 0x2500 ≤ n && n ≤ 0x257F then -3
  else if n = 0xFFFD then -5
  else if goIsPrint c then 0
  else -3

/-- The high half (0x80–0xFF) of the writer's CP1251 table, `cp1251Decode`
from `noise.go`; position 24 (byte 0x98) is the unassigned sentinel 0. -/
def cp1251Decode : List Nat :=
  [0x0402, 0x0403, 0x201A, 0x0453, 0x201E, 0x2026, 0x2020, 0x2021,
   0x20AC, 0x2030, 0x0409, 0x2039, 0x040A, 0x040C, 0x040B, 0x040F,
   0x0452, 0x2018, 0x2019, 0x201C, 0x201D, 0x2022, 0x2013, 0x2014,
   0x0000, 0x2122, 0x0459, 0x203A, 0x045A, 0x045C, 0x045B, 0x045F,
   0x00A0, 0x040E, 0x045E, 0x0408, 0x00A4, 0x0490, 0x00A6, 0x00A7,
   0x0401, 0x00A9, 0x0404, 0x00AB, 0x00AC, 0x00AD, 0x00AE, 0x0407,
   0x00B0, 0x00B1, 0x0406, 0x0456, 0x0491, 0x00B5, 0x00B6, 0x00B7,
   0x0451, 0x2116, 0x0454, 0x00BB, 0x0458, 0x0405, 0x0455, 0x0457,
   0x0410, 0x0411, 0x0412, 0x0413, 0x0414, 0x0415, 0x0416, 0x0417,
   0x0418, 0x0419, 0x041A, 0x041B, 0x041C, 0x041D, 0x041E, 0x041F,
   0x0420, 0x0421, 0x0422, 0x0423, 0x0424, 0x0425, 0x0426, 0x0427,
   0x0428, 0x0429, 0x042A, 0x042B, 0x042C, 0x042D, 0x042E, 0x042F,
   0x0430, 0x0431, 0x0432, 0x0433, 0x0434, 0x0435, 0x0436, 0x0437,
   0x0438, 0x0439, 0x043A, 0x043B, 0x043C, 0x043D, 0x043E, 0x043F,
   0x0440, 0x0441, 0x0442, 0x0443, 0x0444, 0x0445, 0x0446, 0x0447,
   0x0448, 0x0449, 0x044A, 0x044B, 0x044C, 0x044D, 0x044E, 0x044F]

/-- The decoder table of `charmap.Windows1251` (x/text): identical to the
writer's table except that the unassigned byte 0x98 decodes to the
replacement character U+FFFD. -/
def cp1251Table : List Nat :=
  cp1251Decode.set 24 0xFFFD

/-- The decoder table of `charmap.CodePage866` (x/text), bytes 0x80–0xFF. -/
def cp866Table : List Nat :=
  [0x0410, 0x0411, 0x0412, 0x0413, 0x0414, 0x0415, 0x0416, 0x0417,
   0x0418, 0x0419, 0x041A, 0x041B, 0x041C, 0x041D, 0x041E, 0x041F,
   0x0420, 0x0421, 0x0422, 0x0423, 0x0424, 0x0425, 0x0426, 0x0427,
   0x0428, 0x0429, 0x042A, 0x042B, 0x042C, 0x042D, 0x042E, 0x042F,
   0x0430, 0x0431, 0x0432, 0x0433, 0x0434, 0x0435, 0x0436, 0x0437,
   0x0438, 0x0439, 0x043A, 0x043B, 0x043C, 0x043D, 0x043E, 0x043F,
   0x2591, 0x2592, 0x2593, 0x2502, 0x2524, 0x2561, 0x2562, 0x2556,
   0x2555, 0x2563, 0x2551, 0x2557, 0x255D, 0x255C, 0x255B, 0x2510,
   0x2514, 0x2534, 0x252C, 0x251C, 0x2500, 0x253C, 0x255E, 0x255F,
   0x255A, 0x2554, 0x2569, 0x2566, 0x2560, 0x2550, 0x256C, 0x2567,
   0x2568, 0x2564, 0x2565, 0x2559, 0x2558, 0x2552, 0x2553, 0x256B,
   0x256A, 0x2518, 0x250C, 0x2588, 0x2584, 0x258C, 0x2590, 0x2580,
   0x0440, 0x0441, 0x0442, 0x0443, 0x0444, 0x0445, 0x0446, 0x0447,
   0x0448, 0x0449, 0x044A, 0x044B, 0x044C, 0x044D, 0x044E, 0x044F,
   0x0401, 0x0451, 0x0404, 0x0454, 0x0407, 0x0457, 0x040E, 0x045E,
   0x00B0, 0x2219, 0x00B7, 0x221A, 0x2116, 0x00A4, 0x25A0, 0x00A0]

/-- The decoder table of `charmap.CodePage437` (x/text), bytes 0x80–0xFF. -/
def cp437Table : List Nat :=
  [0x00C7, 0x00FC, 0x00E9, 0x00E2, 0x00E4, 0x00E0, 0x00E5, 0x00E7,
   0x00EA, 0x00EB, 0x00E8, 0x00EF, 0x00EE, 0x00EC, 0x00C4, 0x00C5,
   0x00C9, 0x00E6, 0x00C6, 0x00F4, 0x00F6, 0x00F2, 0x00FB, 0x00F9,
   0x00FF, 0x00D6, 0x00DC, 0x00A2, 0x00A3, 0x00A5, 0x20A7, 0x0192,
   0x00E1, 0x00ED, 0x00F3, 0x00FA, 0x00F1, 0x00D1, 0x00AA, 0x00BA,
   0x00BF, 0x2310, 0x00AC, 0x00BD, 0x00BC, 0x00A1, 0x00AB, 0x00BB,
   0x2591, 0x2592, 0x2593, 0x2502, 0x2524, 0x2561, 0x2562, 0x2556,
   0x2555, 0x2563, 0x2551, 0x2557, 0x255D, 0x255C, 0x255B, 0x2510,
   0x2514, 0x2534, 0x252C, 0x251C, 0x2500, 0x253C, 0x255E, 0x255F,
   0x255A, 0x2554, 0x2569, 0x2566, 0x2560, 0x2550, 0x256C, 0x2567,
   0x2568, 0x2564, 0x2565, 0x2559, 0x2558, 0x2552, 0x2553, 0x256B,
   0x256A, 0x2518, 0x250C, 0x2588, 0x2584, 0x258C, 0x2590, 0x2580,
   0x03B1, 0x00DF, 0x0393, 0x03C0, 0x03A3, 0x03C3, 0x00B5, 0x03C4,
   0x03A6, 0x0398, 0x03A9, 0x03B4, 0x221E, 0x03C6, 0x03B5, 0x2229,
   0x2261, 0x00B1, 0x2265, 0x2264, 0x2320, 0x2321, 0x00F7, 0x2248,
   0x00B0, 0x2219, 0x00B7, 0x221A, 0x207F, 0x00B2, 0x25A0, 0x00A0]

/-- Decode one byte through a single-byte code page: ASCII maps by identity,
the high half through the 128-entry table (as the x/text charmap decoders
do, never failing). -/
def tableDecodeByte (table : List Nat) (b : Nat) : Char :=
  if b < 0x80 then Char.ofNat b else Char.ofNat (table.getD (b - 0x80) 0)

/-- `decodeWith` from `decryptor.go` for a single-byte code page. -/
def decodeTable (table : List Nat) (bs : List Nat) : List Char :=
  bs.map (tableDecodeByte table)

/-- `encodeCP1251` from `noise.go`: ASCII passes through, a high character
encodes to `0x80 + i` when it appears at index `i` of the writer's table
(position 24 holds the sentinel 0 and is never chosen), and anything else is
an encoding error. -/
def cp1251EncodeByte (c : Char) : Option Nat :=
  if c.toNat < 0x80 then some c.toNat
  else ((List.range 128).find? (fun i => cp1251Decode.getD i 0 = c.toNat)).map (0x80 + ·)

/-- Encode a whole name to CP1251, failing when any character is
unrepresentable, as the Go loop does. -/
def encodeCP1251 : List Char → Option (List Nat)
  | [] => some []
  | c :: rest =>
    match cp1251EncodeByte c, encodeCP1251 rest with
    | some b, some bs => some (b :: bs)
    | _, _ => none

/-- UTF-8 decoding with fuel (one unit per character, so `l.length` always
suffices); implements exactly Go's `utf8` validity rules: shortest form only,
no surrogates, maximum U+10FFFF. -/
def utf8DecodeAux : Nat → List Nat → Option (List Char)
  | _, [] => some []
  | 0, _ :: _ => none
  | fuel + 1, b :: rest =>
    if b < 0x80 then
      (utf8DecodeAux fuel rest).map (Char.ofNat b :: ·)
    else if 0xC2 ≤ b ∧ b ≤ 0xDF then
      match rest with
      | c1 :: rest1 =>
        if 0x80 ≤ c1 ∧ c1 ≤ 0xBF then
          (utf8DecodeAux fuel rest1).map
            (Char.ofNat ((b - 0xC0) * 64 + (c1 - 0x80)) :: ·)
        else none
      | [] => none
    else if 0xE0 ≤ b ∧ b ≤ 0xEF then
      match rest with
      | c1 :: c2 :: rest2 =>
        let lo1 : Nat := if b = 0xE0 then 0xA0 else 0x80
        let hi1 : Nat := if b = 0xED then 0x9F else 0xBF
        if lo1 ≤ c1 ∧ c1 ≤ hi1 ∧ 0x80 ≤ c2 ∧ c2 ≤ 0xBF then
          (utf8DecodeAux fuel rest2).map
            (Char.ofNat ((b - 0xE0) * 4096 + (c1 - 0x80) * 64 + (c2 - 0x80)) :: ·)
        else none
      | _ => none
    else if 0xF0 ≤ b ∧ b ≤ 0xF4 then
      match rest with
      | c1 :: c2 :: c3 :: rest3 =>
        let lo1 : Nat := if b = 0xF0 then 0x90 else 0x80
        let hi1 : Nat := if b = 0xF4 then 0x8F else 0xBF
        if lo1 ≤ c1 ∧ c1 ≤ hi1 ∧ 0x80 ≤ c2 ∧ c2 ≤ 0xBF ∧ 0x80 ≤ c3 ∧ c3 ≤ 0xBF then
          (utf8DecodeAux fuel rest3).map
            (Char.ofNat ((b - 0xF0) * 262144 + (c1 - 0x80) * 4096 +
              (c2 - 0x80) * 64 + (c3 - 0x80)) :: ·)
        else none
      | _ => none
    else none

/-- Decode a byte sequence as UTF-8 (`utf8.Valid` plus `string(name)`):
`some` exactly on valid UTF-8. -/
def utf8Decode (bs : List Nat) : Option (List Char) :=
  utf8DecodeAux bs.length bs

/-- UTF-8 encoding of one character (Go's `[]byte(s)` on a string). -/
def utf8EncodeChar (c : Char) : List Nat :=
  let n := c.toNat
  if n < 0x80 then [n]
  else if n < 0x800 then [0xC0 + n / 64, 0x80 + n % 64]
  else if n < 0x10000 then [0xE0 + n / 4096, 0x80 + n / 64 % 64, 0x80 + n % 64]
  else [0xF0 + n / 262144, 0x80 + n / 4096 % 64, 0x80 + n / 64 % 64, 0x80 + n % 64]

/-- UTF-8 encoding of a whole string. -/
def utf8Encode (s : List Char) : List Nat :=
  s.foldr (fun c acc => utf8EncodeChar c ++ acc) []

/-- The candidate fold of `decodeFilename`: start from the first candidate and
replace it whenever a later one scores strictly higher. -/
def bestCandidate (first : Int × List Char) (rest : List (Int × List Char)) :
    Int × List Char :=
  rest.foldl (fun best c => if c.1 > best.1 then c else best) first

/-- `decodeFilename` from `decryptor.go`: with flag bit 11 accept only valid
UTF-8; otherwise score the UTF-8 (when valid), CP866, CP1251 and CP437
decodings and return the first highest-scoring candidate. -/
def decodeFilename (name : List Nat) (flags : Nat) : Option (List Char) :=
  if flags &&& flagUTF8 ≠ 0 then utf8Decode name
  else
    let cands : List (Int × List Char) :=
      (match utf8Decode name with
       | some s => [(scoreName s, s)]
       | none => []) ++
      [(scoreName (decodeTable cp866Table name), decodeTable cp866Table name),
       (scoreName (decodeTable cp1251Table name), decodeTable cp1251Table name),
       (scoreName (decodeTable cp437Table name), decodeTable cp437Table name)]
    match cands with
    | [] => none
    | c :: cs => some (bestCandidate c cs).2

/-- Go slice expression `buf[a:b]`. -/
def sliceBytes (buf : List Nat) (a b : Nat) : List Nat :=
  (buf.take b).drop a

/-- `safeRelPath` step 1: `strings.ReplaceAll(name, "\\", "/")`. -/
def slashify (s : List Char) : List Char :=
  s.map (fun c => if c = '\\' then '/' else c)

/-- `safeRelPath` step 2: the anchored regular expression `^\.*/+` removes a
maximal run of dots followed by at least one slash from the front (nothing
when no slash follows the dots). -/
def stripLeadingDotsSlashes (s : List Char) : List Char :=
  let dots := s.takeWhile (· = '.')
  let rest := s.drop dots.length
  let slashes := rest.takeWhile (· = '/')
  if slashes.isEmpty then s else rest.drop slashes.length

/-- `strings.Split(n, "/")`: split on every slash, keeping empty segments. -/
def splitOnSlash : List Char → List (List Char)
  | [] => [[]]
  | c :: rest =>
    if c = '/' then [] :: splitOnSlash rest
    else
      match splitOnSlash rest with
      | seg :: segs => (c :: seg) :: segs
      | [] => [[c]]

/-- `safeRelPath` from `decryptor.go`: slashify, strip the leading dots/slash
run, drop empty, `.` and `..` segments, and rejoin; `none` when nothing is
left (on Linux `filepath.Join` joins with `/` and its `Clean` is the identity
on the surviving segments). -/
def safeRelPath (name : List Char) : Option (List Char) :=
  let n := stripLeadingDotsSlashes (slashify name)
  let parts := splitOnSlash n
  let clean := parts.filter (fun p => !(p.isEmpty || p = ['.'] || p = ['.', '.']))
  if clean.isEmpty then none
  else some (List.intercalate ['/'] clean)

/-- `isJunkPath` from `decryptor.go`: the relative path is exactly `.junk` or
starts with `.junk/`. -/
def isJunkPath (rel : List Char) : Bool :=
  let r := slashify rel
  r = ['.', 'j', 'u', 'n', 'k'] ||
  List.isPrefixOf ['.', 'j', 'u', 'n', 'k', '/'] r

/-- Little-endian 16-bit read at `off` (Go `binary.LittleEndian.Uint16`). -/
def read16 (buf : List Nat) (off : Nat) : Nat :=
  buf.getD off 0 % 256 + buf.getD (off + 1) 0 % 256 * 256

/-- Little-endian 32-bit read at `off` (Go `binary.LittleEndian.Uint32`). -/
def read32 (buf : List Nat) (off : Nat) : Nat :=
  buf.getD off 0 % 256 + buf.getD (off + 1) 0 % 256 * 256 +
  buf.getD (off + 2) 0 % 256 * 65536 + buf.getD (off + 3) 0 % 256 * 16777216

/-- The `localHeader` record of `decryptor.go` (the fields the scanner reads). -/
structure LocalHeader where
  off : Nat
  flags : Nat
  comp : Nat
  csize : Nat
  fname : List Char
  dataOff : Nat
deriving Repr, DecidableEq

/-- `parseLocalHeader` from `decryptor.go`: bounds checks, signature check,
field extraction and filename decoding. -/
def parseLocalHeader (buf : List Nat) (off : Nat) : Option LocalHeader :=
  if off + 30 > buf.length then none
  else if read32 buf off ≠ sigLocal then none
  else
    let flags := read16 buf (off + 6)
    let comp := read16 buf (off + 8)
    let csize := read32 buf (off + 18)
    let fnlen := read16 buf (off + 26)
    let exlen := read16 buf (off + 28)
    let nameStart := off + 30
    let nameEnd := nameStart + fnlen
    let extraEnd := nameEnd + exlen
    if extraEnd > buf.length || nameEnd > buf.length then none
    else
      match decodeFilename (sliceBytes buf nameStart nameEnd) flags with
      | none => none
      | some fname => some ⟨off, flags, comp, csize, fname, extraEnd⟩

/-- Phase 1 of `recoverZip`: every offset whose next four bytes are the
local-header magic `50 4B 03 04` (`"PK\x03\x04"`). -/
def scanPositions (buf : List Nat) : List Nat :=
  (List.range buf.length).filter (fun i =>
    i + 4 ≤ buf.length && buf.getD i 0 = 80 && buf.getD (i + 1) 0 = 75 &&
    buf.getD (i + 2) 0 = 3 && buf.getD (i + 3) 0 = 4)

/-- The bracket loop of `inflateIncremental`: attempt each subsequent
candidate boundary as the end of a raw-DEFLATE window, accept the first
success and stop after the post-increment cap test `tries > 20000`.  The raw
decoder `inflate` is the one external capability (Go `compress/flate`), passed
in as a function. -/
def inflateLoop (inflate : List Nat → Option (List Nat)) (buf : List Nat)
    (start : Nat) : List Nat → Nat → Option (List Nat)
  | [], _ => none
  | e :: rest, tries =>
    match (if e > start then inflate (sliceBytes buf start e) else none) with
    | some out => some out
    | none =>
      if tries + 1 > 20000 then none
      else inflateLoop inflate buf start rest (tries + 1)

/-- `inflateIncremental` from `decryptor.go`: try the bracket loop, then fall
back to the window running to the end of the buffer. -/
def inflateIncremental (inflate : List Nat → Option (List Nat)) (buf : List Nat)
    (start : Nat) (positions : List Nat) (i : Nat) : Option (List Nat) :=
  match inflateLoop inflate buf start (positions.drop (i + 1)) 0 with
  | some out => some out
  | none => if start < buf.length then inflate (buf.drop start) else none

/-- The payload-extraction decision of `recoverZip` (lines 256–267 of
`decryptor.go`): method 8 goes through incremental bracket inflation; method 0
with flag bit 3 clear takes the stored `csize` bytes when they fit; everything
else yields no content. -/
def candidateContent (inflate : List Nat → Option (List Nat)) (buf : List Nat)
    (positions : List Nat) (idx : Nat) (h : LocalHeader) : Option (List Nat) :=
  if h.comp = 8 then inflateIncremental inflate buf h.dataOff positions idx
  else if h.comp = 0 && h.flags &&& flagDataDesc = 0 then
    if h.dataOff + h.csize ≤ buf.length then
      some (sliceBytes buf h.dataOff (h.dataOff + h.csize))
    else none
  else none

/-- The per-candidate body of `recoverZip`'s scan loop: parse, sanitise the
name, drop `.junk` entries, extract content, and materialise.  The abstract
predicates `mkdirOk` and `writeOk` model the two filesystem calls
(`os.MkdirAll` on the parent, `os.WriteFile` on the target under the fixed
output directory); on any failure the loop continues.  The accumulator carries
the `recovered` counter and the list of files written. -/
def recoverStep (inflate : List Nat → Option (List Nat))
    (mkdirOk writeOk : List Char → Bool) (buf : List Nat) (positions : List Nat)
    (acc : Nat × List (List Char × List Nat)) (idx : Nat) :
    Nat × List (List Char × List Nat) :=
  match parseLocalHeader buf (positions.getD idx 0) with
  | none => acc
  | some h =>
    match safeRelPath h.fname with
    | none => acc
    | some rel =>
      if isJunkPath rel then acc
      else
        match candidateContent inflate buf positions idx h with
        | none => acc
        | some content =>
          if mkdirOk rel then
            if writeOk rel then (acc.1 + 1, acc.2 ++ [(rel, content)])
            else acc
          else acc

/-- Phases 1–5 of `recoverZip` over an in-memory buffer: scan for candidates
and fold the per-candidate step over them. -/
def recoverScan (inflate : List Nat → Option (List Nat))
    (mkdirOk writeOk : List Char → Bool) (buf : List Nat) :
    Nat × List (List Char × List Nat) :=
  let positions := scanPositions buf
  (List.range positions.length).foldl
    (recoverStep inflate mkdirOk writeOk buf positions) (0, [])

/-- `recoverZip` from `decryptor.go`: `os.ReadFile` on the input archive is
the only fallible step outside the scan loop (`input = none` models a read
failure); the scan itself always completes and its count is returned. -/
def recoverZipModel (input : Option (List Nat))
    (inflate : List Nat → Option (List Nat))
    (mkdirOk writeOk : List Char → Bool) : Except String Nat :=
  match input with
  | none => Except.error "read input archive"
  | some buf => Except.ok (recoverScan inflate mkdirOk writeOk buf).1

/-- The civil-time components Go's `time.Time` accessors expose; enough to
model `dosTimeDate`. -/
structure GoTime where
  year : Nat
  month : Nat
  day : Nat
  hour : Nat
  minute : Nat
  second : Nat
deriving Repr, DecidableEq

/-- `dosTimeDate` from `noise.go`: times before 1980 (or any time under
`fixed_time`) collapse to 1980-01-01 00:00:00, then MS-DOS packing with the
Go `uint16` casts. -/
def dosTimeDate (t : GoTime) (fixed : Bool) : Nat × Nat :=
  let t := if fixed || t.year < 1980 then ⟨1980, 1, 1, 0, 0, 0⟩ else t
  ((t.hour <<< 11 ||| t.minute <<< 5 ||| t.second / 2) % 2 ^ 16,
   ((t.year - 1980) <<< 9 ||| t.month <<< 5 ||| t.day) % 2 ^ 16)

/-- One walked source file as `listFiles` yields it: the slash-separated
relative name, the file's bytes and its modification time.  (The directory
walk, hidden-file filtering and the output-file exclusion are filesystem
concerns; the model receives their result.) -/
structure SrcFile where
  rel : String
  content : List Nat
  mtime : GoTime
deriving Repr, DecidableEq

/-- `Config` from `noise.go` (the `SrcDir`/`OutZip` paths are filesystem
concerns and are replaced by the walked file list given to the model). -/
structure Config where
  Compression : String
  Encoding : String
  OverwriteCentralDir : Bool
  CommentSize : Int
  FixedTime : Bool
  NoiseFiles : Int
  NoiseSize : Int
  Level : Int
  Strategy : String
  DictSize : Int
  Workers : Int
  IncludeHidden : Bool
  Seed : Int
  HasSeed : Bool
deriving Repr, DecidableEq

/-- ASCII lowering, the reach of `strings.ToLower` on the configuration
keywords compared against (`deflate`, `store`, the strategy names, the
encodings). -/
def asciiLower (c : Char) : Char :=
  if 'A' ≤ c && c ≤ 'Z' then Char.ofNat (c.toNat + 32) else c

/-- The whitespace `strings.TrimSpace` strips on the ASCII configuration
values at hand. -/
def isSpaceChar (c : Char) : Bool :=
  c = ' ' || c = '\t' || c = '\n' || c = '\r'

/-- `strings.ToLower(strings.TrimSpace(s))` as applied to config values. -/
def toLowerTrim (s : String) : String :=
  String.mk ((((s.data.dropWhile isSpaceChar).reverse.dropWhile
    isSpaceChar).reverse).map asciiLower)

/-- Go string comparison `<` on two rune sequences: UTF-8 byte order, which
coincides with code-point lexicographic order. -/
def charListLt : List Char → List Char → Bool
  | _, [] => false
  | [], _ :: _ => true
  | a :: as, b :: bs =>
    if a.toNat < b.toNat then true
    else if b.toNat < a.toNat then false
    else charListLt as bs

/-- The non-strict companion of `charListLt`. -/
def charListLe (a b : List Char) : Bool :=
  !charListLt b a

/-- The comparison `files[i].rel < files[j].rel` used by `listFiles`'s
`sort.Slice`, as a non-strict relation for sorting. -/
def fileLe (x y : SrcFile) : Prop :=
  charListLe x.rel.data y.rel.data = true

instance : DecidableRel fileLe := fun x y => by
  unfold fileLe; infer_instance

/-- The sort at the end of `listFiles`.  `sort.Slice` is unstable, but the
relative names of distinct walked files are distinct, so the sorted
permutation is unique and insertion sort computes it. -/
def sortFiles (files : List SrcFile) : List SrcFile :=
  files.insertionSort fileLe

/-- `makeNameEncoder` from `noise.go`: UTF-8 passes the bytes through and
announces flag bit 11; CP1251 uses the table encoder with no flag; anything
else is a configuration error. -/
def makeNameEncoder (enc : String) :
    Except String ((List Char → Option (List Nat)) × Nat) :=
  let e := toLowerTrim enc
  if e = "utf-8" || e = "utf8" then
    Except.ok (fun s => some (utf8Encode s), flagUTF8)
  else if e = "cp1251" then
    Except.ok (fun s => encodeCP1251 s, 0)
  else Except.error "unsupported encoding"

/-- `compressFile` from `noise.go` with the raw-DEFLATE compressor abstracted
as `deflate levelVal` (Go `compress/flate`; `levelVal` is `-2` for
Huffman-only).  The CRC and the 32-bit wrapping `usize` counter run over the
source bytes; `csize` counts the bytes written below DEFLATE; `store` copies
the bytes with `csize = usize`. -/
def compressFile (encName : List Char → Option (List Nat)) (nameFlag method : Nat)
    (useDeflate : Bool) (deflate : Int → List Nat → List Nat) (levelVal : Int)
    (fixedTime : Bool) (f : SrcFile) : Except String Entry :=
  match encName f.rel.data with
  | none => Except.error "encode name"
  | some nb =>
    let td := dosTimeDate f.mtime fixedTime
    let crc := crc32 f.content
    let usize := f.content.length % 2 ^ 32
    if useDeflate then
      let payload := deflate levelVal f.content
      Except.ok ⟨nb, nameFlag, method, td.1, td.2, crc, payload.length % 2 ^ 32,
        usize, 0, payload⟩
    else
      Except.ok ⟨nb, nameFlag, method, td.1, td.2, crc, usize, usize, 0, f.content⟩

/-- A lowercase hexadecimal digit (`"0123456789abcdef"[n]`). -/
def hexDigit (n : Nat) : Char :=
  if n < 10 then Char.ofNat (48 + n) else Char.ofNat (87 + n)

/-- `randHex` from `noise.go`: `n` stream bytes rendered as `2n` lowercase
hex digits. -/
def randHexChars (s : Nat → Nat) (c n : Nat) : List Char :=
  (streamBytes s c n).foldr (fun b acc => hexDigit (b / 16) :: hexDigit (b % 16) :: acc) []

/-- `fmt.Sprintf("%04d", i)`: decimal digits zero-padded to width 4. -/
def pad4 (n : Nat) : List Char :=
  let d := Nat.toDigits 10 n
  List.replicate (4 - d.length) '0' ++ d

/-- The noise-entry name `".junk/NNNN_HHHHHHHHHHHH.bin"`. -/
def junkName (i : Nat) (hex : List Char) : List Char :=
  ('.' :: 'j' :: 'u' :: 'n' :: 'k' :: '/' :: pad4 i) ++ ('_' :: hex) ++
  ['.', 'b', 'i', 'n']

/-- `makeNoiseEntry` from `noise.go`: the timestamp is `time.Unix(0, 0)`
(year 1970 < 1980, so it collapses to 1980-01-01 regardless of `fixed_time`),
the payload source is `size` bytes drawn from the stream, and the transforms
mirror `compressFile`.  Returns the entry and the advanced cursor. -/
def makeNoiseEntry (s : Nat → Nat) (cursor : Nat) (name : List Char)
    (encName : List Char → Option (List Nat)) (nameFlag method : Nat)
    (useDeflate : Bool) (deflate : Int → List Nat → List Nat) (levelVal : Int)
    (fixedTime : Bool) (size : Nat) : Except String (Entry × Nat) :=
  match encName name with
  | none => Except.error "encode name"
  | some nb =>
    let td := dosTimeDate ⟨1970, 1, 1, 0, 0, 0⟩ fixedTime
    let src := streamBytes s cursor size
    let crc := crc32 src
    let usize := size % 2 ^ 32
    if useDeflate then
      let payload := deflate levelVal src
      Except.ok (⟨nb, nameFlag, method, td.1, td.2, crc, payload.length % 2 ^ 32,
        usize, 0, payload⟩, cursor + size)
    else
      Except.ok (⟨nb, nameFlag, method, td.1, td.2, crc, usize, usize, 0, src⟩,
        cursor + size)

/-- The noise loop of `RunEncrypt`: entry `i` first draws 6 stream bytes for
the hex part of its name, then its payload bytes, so each entry consumes
`6 + size` stream bytes in index order. -/
def buildNoise (s : Nat → Nat) (encName : List Char → Option (List Nat))
    (nameFlag method : Nat) (useDeflate : Bool)
    (deflate : Int → List Nat → List Nat) (levelVal : Int) (fixedTime : Bool)
    (size : Nat) : Nat → Nat → Nat → Except String (List Entry × Nat)
  | _, 0, cursor => Except.ok ([], cursor)
  | i, rem + 1, cursor => do
    let hex := randHexChars s cursor 6
    let name := junkName i hex
    let (ent, cursor1) ← makeNoiseEntry s (cursor + 6) name encName nameFlag
      method useDeflate deflate levelVal fixedTime size
    let (rest, cursor2) ← buildNoise s encName nameFlag method useDeflate
      deflate levelVal fixedTime size (i + 1) rem cursor1
    Except.ok (ent :: rest, cursor2)

/-- `RunEncrypt` from `noise.go` up to (but not including) `writeZip`: the
validations in source order, the sorted file list, the name encoder, the
per-file compression (the worker pool collates results by input index, so the
sequential `mapM` is its observable behaviour; a per-file failure aborts the
build), then the noise entries drawing from the stream in index order.
Returns the full entry list and the stream cursor left after the noise
draws. -/
def archivePlan (cfg : Config) (files : List SrcFile)
    (deflate : Int → List Nat → List Nat) (s : Nat → Nat) :
    Except String (List Entry × Nat) :=
  if cfg.CommentSize < 0 || cfg.CommentSize > 65535 then
    Except.error "comment-size must be in range 0..65535"
  else if cfg.NoiseFiles < 0 || cfg.NoiseSize < 0 then
    Except.error "noise-files and noise-size must be >= 0"
  else if cfg.Level < 0 || cfg.Level > 9 then
    Except.error "level must be in range 0..9"
  else if cfg.DictSize ≠ 32768 then
    Except.error "dict-size must be 32768 (Go stdlib deflate uses fixed 32 KB window)"
  else
    let comp := toLowerTrim cfg.Compression
    if comp ≠ "deflate" && comp ≠ "store" then
      Except.error "compression must be deflate or store"
    else
      let strat := toLowerTrim cfg.Strategy
      if !(strat = "default" || strat = "filtered" || strat = "huffman" ||
           strat = "rle" || strat = "fixed") then
        Except.error "strategy must be one of: default, filtered, huffman, rle, fixed"
      else
        let items := sortFiles files
        if items.isEmpty then Except.error "no files found in source directory"
        else
          match makeNameEncoder cfg.Encoding with
          | Except.error e => Except.error e
          | Except.ok (encName, nameFlag) =>
            let useDeflate := comp = "deflate"
            let method : Nat := if useDeflate then 8 else 0
            let levelVal : Int := if strat = "huffman" then -2 else cfg.Level
            match items.mapM (compressFile encName nameFlag method useDeflate
                deflate levelVal cfg.FixedTime) with
            | Except.error e => Except.error e
            | Except.ok realEntries =>
              match buildNoise s encName nameFlag method useDeflate deflate
                  levelVal cfg.FixedTime cfg.NoiseSize.toNat 0
                  cfg.NoiseFiles.toNat 0 with
              | Except.error e => Except.error e
              | Except.ok (noiseEntries, cursor) =>
                Except.ok (realEntries ++ noiseEntries, cursor)

/-- `RunEncrypt` from `noise.go` as a pure pipeline: the plan above followed
by `writeZip` on the assembled entry list. -/
def runEncryptModel (cfg : Config) (files : List SrcFile)
    (deflate : Int → List Nat → List Nat) (s : Nat → Nat) :
    Except String (List Nat) :=
  match archivePlan cfg files deflate s with
  | Except.error e => Except.error e
  | Except.ok (ents, cursor) =>
    Except.ok (writeZip s cursor ents cfg.OverwriteCentralDir
      cfg.CommentSize.toNat).1

/-- The final on-disk 30-byte local header plus name, payload and data
descriptor that claim C1 describes for `overwrite_central_dir = true`: flag
bit 3 set, the true CRC patched into the header, both size fields still zero,
and a truthful 16-byte data descriptor after the payload. -/
def specLocalChunk (e : Entry) : List Nat :=
  (le32 sigLocal ++ le16 20 ++ le16 (e.flags ||| flagDataDesc) ++ le16 e.method ++
    le16 e.dosT ++ le16 e.dosD ++ le32 e.crc ++ le32 0 ++ le32 0 ++
    le16 e.name.length ++ le16 0) ++
  e.name ++ e.payload ++
  (le32 sigDD ++ le32 e.crc ++ le32 e.csize ++ le32 e.usize)

/-- Length of one overwrite-mode local chunk: 30-byte header, name, payload,
16-byte data descriptor. -/
def specLocalLen (e : Entry) : Nat :=
  46 + e.name.length + e.payload.length

/-- All overwrite-mode local chunks in entry order. -/
def specLocalsBytes : List Entry → List Nat
  | [] => []
  | e :: es => specLocalChunk e ++ specLocalsBytes es

/-- The central-directory record claim C1 describes: truthful `crc`, `csize`
and `usize`, flag bit 3, and the entry's local offset, followed by the name. -/
def specCDirRecord (off : Nat) (e : Entry) : List Nat :=
  (le32 sigCDir ++ le16 20 ++ le16 20 ++ le16 (e.flags ||| flagDataDesc) ++
    le16 e.method ++ le16 e.dosT ++ le16 e.dosD ++
    le32 e.crc ++ le32 e.csize ++ le32 e.usize ++
    le16 e.name.length ++ le16 0 ++ le16 0 ++ le16 0 ++ le16 0 ++ le32 0 ++
    le32 off) ++ e.name

/-- The central directory in entry order, each record carrying the offset at
which its entry's local chunk was laid down. -/
def specCDirAll : Nat → List Entry → List Nat
  | _, [] => []
  | off, e :: es => specCDirRecord off e ++ specCDirAll (off + specLocalLen e) es

/-- The entry record as `writeZip` leaves it in overwrite mode: bit 3 stamped
into the flags and the local offset recorded. -/
def ovEntryAt (off : Nat) (e : Entry) : Entry :=
  { e with flags := e.flags ||| flagDataDesc, offset := off }

/-- The updated entry list `writeLocals` produces in overwrite mode. -/
def ovEntriesFrom : Nat → List Entry → List Entry
  | _, [] => []
  | off, e :: es => ovEntryAt off e :: ovEntriesFrom (off + specLocalLen e) es

def c1Entry : Entry :=
  ⟨[97], 2048, 0, 0, 33, 0x12345678, 5, 5, 0, [104, 101, 108, 108, 111]⟩

/-- The forged end-of-central-directory record `writePoisonTail` emits, byte
by byte. -/
def specPoisonRecord : List Nat :=
  [80, 75, 5, 6, 0, 0, 0, 0, 0, 0, 0, 0, 255, 255, 255, 255, 0, 0, 0, 128, 0, 0]

def c2Entry : Entry :=
  ⟨[97], 0, 0, 0, 33, 0x12345678, 5, 5, 0, [104, 101, 108, 108, 111]⟩

/-- The S1 configuration: defaults with `compression = store` and
`overwrite_central_dir = false` (defaults from the CLI: level 6, strategy
default, utf-8 names, no noise, no comment, `DictSize` pinned to 32768). -/
def c6Config : Config :=
  ⟨"store", "utf-8", false, 0, false, 0, 0, 6, "default", 32768, 8, false, 0, false⟩

/-- The S1 input tree: a single file `a.txt` with contents `"hello"` (an
arbitrary post-1980 modification time; S1 constrains no time field). -/
def c6File : SrcFile :=
  ⟨"a.txt", [104, 101, 108, 108, 111], ⟨2020, 1, 2, 3, 4, 5⟩⟩

/-- The S1 output archive. -/
def c6Out : List Nat :=
  ((runEncryptModel c6Config [c6File] (fun _ l => l) (fun _ => 0)).toOption).getD []

/-- A minimal valid archive fragment: one local header (method 0, no data
descriptor flag, `csize = 1`, name `a`) followed by one payload byte. -/
def c8Buf : List Nat :=
  [80, 75, 3, 4, 20, 0, 0, 0, 0, 0, 0, 0, 0, 0, 0, 0, 0, 0, 1, 0, 0, 0,
   0, 0, 0, 0, 1, 0, 0, 0, 97, 65]

/-- The S5 name. -/
def s5Name : List Char := "Документы/заметка.txt".data

/-- First successful decode among a list of candidate windows. -/
def firstSuccess (inflate : List Nat → Option (List Nat)) :
    List (List Nat) → Option (List Nat)
  | [] => none
  | w :: ws =>
    match inflate w with
    | some out => some out
    | none => firstSuccess inflate ws

/-- The candidate windows the bracket loop actually attempts: the boundaries
after candidate `i`, capped at 20 001 of them (the code's `tries > 20000`
test runs after the increment, and boundaries at or before `start` consume an
attempt without decoding), each made into the window `buf[start .. end]`. -/
def bracketWindows (buf : List Nat) (start : Nat) (positions : List Nat)
    (i : Nat) : List (List Nat) :=
  (((positions.drop (i + 1)).take 20001).filter (fun e => e > start)).map
    (fun e => sliceBytes buf start e)

/-- A one-entry buffer whose header carries method 0 with flag bit 3 set and
one payload byte after the name. -/
def c4Buf : List Nat :=
  [80, 75, 3, 4, 20, 0, 8, 0, 0, 0, 0, 0, 0, 0, 0, 0, 0, 0, 0, 0, 0, 0,
   0, 0, 0, 0, 1, 0, 0, 0, 97, 65]

/-- A configuration whose only defect is `DictSize = 1`. -/
def c10Config : Config :=
  ⟨"store", "utf-8", false, 0, false, 0, 0, 6, "default", 1, 8, false, 0, false⟩

/-- Byte-sequence analogue of `charListLt`: lexicographic comparison of
encoded names. -/
def byteListLt : List Nat → List Nat → Bool
  | _, [] => false
  | [], _ :: _ => true
  | a :: as, b :: bs =>
    if a < b then true
    else if b < a then false
    else byteListLt as bs

/-- Nondecreasing in byte-lexicographic order. -/
def byteListLe (a b : List Nat) : Bool :=
  !byteListLt b a

/-- The C9 counterexample configuration: CP1251 names, store, no noise. -/
def c9Config : Config :=
  ⟨"store", "cp1251", false, 0, false, 0, 0, 6, "default", 32768, 8, false, 0, false⟩

/-- Two files whose UTF-8 `rel` order (`е` U+0435 < `ё` U+0451) is the
reverse of their CP1251 encoded-byte order (0xE5 = 229 > 0xB8 = 184). -/
def c9Files : List SrcFile :=
  [⟨"ё", [], ⟨2020, 1, 1, 0, 0, 0⟩⟩, ⟨"е", [], ⟨2020, 1, 1, 0, 0, 0⟩⟩]

/-- The entry list the C9 counterexample build produces. -/
def c9Ents : List Entry :=
  (((archivePlan c9Config c9Files (fun _ l => l) (fun _ => 0)).toOption).getD
    ([], 0)).1

/-- The C5 witness configuration: seeded, one noise file of 2 bytes, a
3-byte comment, poison tail enabled. -/
def c5Config : Config :=
  ⟨"store", "utf-8", true, 3, false, 1, 2, 6, "default", 32768, 8, false, 42, true⟩

/-- A second stream agreeing with the identity stream on the consumed range
`1·(6+2) + 3 + 128 = 139` and differing beyond it. -/
def c5Stream2 : Nat → Nat :=
  fun i => if i < 139 then i else 999

/-- The C5 witness build output. -/
def c5Out : List Nat :=
  ((runEncryptModel c5Config [c6File] (fun _ l => l) (fun i => i)).toOption).getD []

/-! ## Theorems settling the claims (with their supporting lemmas) -/

theorem le16_length (n : Nat) : (le16 n).length = 2 := rfl

theorem le32_length (n : Nat) : (le32 n).length = 4 := rfl

/-- The classic CRC-32 test vector: the checksum of `"hello"`. -/
theorem crc32_hello_vector : crc32 [104, 101, 108, 108, 111] = 0x3610A686 := by decide

theorem writeLocalHeader_length (ent : Entry) (a b c : Nat) :
    (writeLocalHeader ent a b c).length = 30 := rfl

theorem writeCDir_length (ent : Entry) : (writeCDir ent).length = 46 := rfl

theorem writeEOCD_length (a b c d : Nat) : (writeEOCD a b c d).length = 22 := rfl

theorem writeDataDesc_length (ent : Entry) : (writeDataDesc ent).length = 16 := rfl

theorem streamBytes_length (s : Nat → Nat) (c n : Nat) :
    (streamBytes s c n).length = n := by
  simp [streamBytes]

theorem specLocalChunk_length (e : Entry) :
    (specLocalChunk e).length = specLocalLen e := by
  simp [specLocalChunk, specLocalLen, le16, le32]
  omega

theorem specLocalsBytes_length (es : List Entry) :
    (specLocalsBytes es).length = (es.map specLocalLen).sum := by
  induction es with
  | nil => rfl
  | cons e es ih => simp [specLocalsBytes, ih, specLocalChunk_length]

theorem patchBytes_append (a b r : List Nat) (k : Nat)
    (h : k + r.length ≤ a.length) :
    patchBytes (a ++ b) k r = patchBytes a k r ++ b := by
  unfold patchBytes
  rw [List.take_append_eq_append_take, List.drop_append_eq_append_drop]
  have h1 : k ≤ a.length := by omega
  have h2 : k - a.length = 0 := by omega
  have h3 : k + r.length - a.length = 0 := by omega
  rw [h2, h3]
  simp

/-- The header written with zeroed `crc/csize/usize` and then patched at
offset 14 with the true CRC is exactly the claim's final local header: true
CRC, sizes still zero. -/
theorem patched_header_eq (e : Entry) :
    patchBytes (writeLocalHeader e 0 0 0) 14 (le32 e.crc) =
      le32 sigLocal ++ le16 20 ++ le16 e.flags ++ le16 e.method ++
      le16 e.dosT ++ le16 e.dosD ++ le32 e.crc ++ le32 0 ++ le32 0 ++
      le16 e.name.length ++ le16 0 := by
  rfl

theorem patchBytes_append_right (a b r : List Nat) (k : Nat) :
    patchBytes (a ++ b) (a.length + k) r = a ++ patchBytes b k r := by
  unfold patchBytes
  rw [List.take_append_eq_append_take, List.drop_append_eq_append_drop]
  rw [List.take_of_length_le (by omega), List.drop_eq_nil_of_le (by omega)]
  have h1 : a.length + k - a.length = k := by omega
  have h2 : a.length + k + r.length - a.length = k + r.length := by omega
  rw [h1, h2]
  simp

/-- Closed form of `writeOneEntry` in overwrite mode, valid while the output
is still below 4 GiB (so the recorded `uint32` offset is the true position
and the CRC patch lands inside this entry's own header). -/
theorem writeOneEntry_overwrite (out : List Nat) (e : Entry)
    (h : out.length < 2 ^ 32) :
    writeOneEntry true out e =
      (out ++ specLocalChunk e, ovEntryAt out.length e) := by
  unfold writeOneEntry patchCRC
  have hoff : out.length % 2 ^ 32 = out.length := Nat.mod_eq_of_lt h
  simp only [if_pos, hoff]
  rw [Prod.mk.injEq]
  refine ⟨?_, rfl⟩
  have hshape :
      ∀ (hd nm pl : List Nat), ((out ++ hd) ++ nm) ++ pl = out ++ (hd ++ (nm ++ pl)) := by
    intro hd nm pl; simp
  rw [hshape]
  rw [patchBytes_append_right out _ _ 14]
  rw [patchBytes_append _ _ _ _ (by simp [writeLocalHeader, le16, le32])]
  rw [patched_header_eq]
  simp [specLocalChunk, ovEntryAt, writeDataDesc]

theorem writeLocals_overwrite (entries : List Entry) (out : List Nat)
    (h : out.length + ((entries.map specLocalLen).sum) ≤ 2 ^ 32) :
    writeLocals true out entries =
      (out ++ specLocalsBytes entries, ovEntriesFrom out.length entries) := by
  induction entries generalizing out with
  | nil => simp [writeLocals, specLocalsBytes, ovEntriesFrom]
  | cons e es ih =>
    have h46 : 46 ≤ specLocalLen e := by unfold specLocalLen; omega
    have hlt : out.length < 2 ^ 32 := by
      simp only [List.map_cons, List.sum_cons] at h
      omega
    have hstep := writeOneEntry_overwrite out e hlt
    simp only [writeLocals, hstep]
    have hrest : (out ++ specLocalChunk e).length +
        ((es.map specLocalLen).sum) ≤ 2 ^ 32 := by
      simp only [List.length_append, specLocalChunk_length]
      simp only [List.map_cons, List.sum_cons] at h
      omega
    rw [ih _ hrest]
    simp [List.length_append, specLocalChunk_length, ovEntriesFrom,
      List.append_assoc, specLocalsBytes]

theorem ovEntriesFrom_length (off : Nat) (es : List Entry) :
    (ovEntriesFrom off es).length = es.length := by
  induction es generalizing off with
  | nil => rfl
  | cons e es ih => simp [ovEntriesFrom, ih]

theorem cdirBytes_ovEntriesFrom (off : Nat) (es : List Entry) :
    cdirBytes (ovEntriesFrom off es) = specCDirAll off es := by
  induction es generalizing off with
  | nil => rfl
  | cons e es ih =>
    simp only [ovEntriesFrom, cdirBytes, List.foldr_cons, specCDirAll]
    rw [show (ovEntriesFrom (off + specLocalLen e) es).foldr
        (fun e acc => writeCDir e ++ e.name ++ acc) [] =
        cdirBytes (ovEntriesFrom (off + specLocalLen e) es) from rfl]
    rw [ih]
    simp [writeCDir, ovEntryAt, specCDirRecord]

theorem streamBytes_zero (s : Nat → Nat) (c : Nat) : streamBytes s c 0 = [] := rfl

/-- Claim C1: with `overwrite_central_dir = true` (and the archive below the
4 GiB limit the format supports), the assembled bytes decompose per entry
into a local header whose `crc32` holds the true CRC (patched after the
payload copy), whose `csize`/`usize` fields are zero and whose `gp_flags`
carry bit 3, followed by the name, the payload and a truthful 16-byte data
descriptor `(sig, crc, csize, usize)`; the central directory records carry
the truthful `crc/csize/usize` and each entry's true local offset.  The
zero-then-patch sequence is the definition of `writeOneEntry`; its closed
form `writeOneEntry_overwrite` exhibits the patch landing on the `crc32`
field only. -/
theorem claimC1 (s : Nat → Nat) (c cs : Nat) (entries : List Entry)
    (h : ((entries.map specLocalLen).sum) ≤ 2 ^ 32) :
    (writeZip s c entries true cs).1 =
      specLocalsBytes entries ++ specCDirAll 0 entries ++
      writeEOCD entries.length (specCDirAll 0 entries).length
        (specLocalsBytes entries).length cs ++
      streamBytes s c cs ++ writePoisonTail s (c + cs) := by
  have hw := writeLocals_overwrite entries [] (by simpa using h)
  simp only [writeZip, hw, List.nil_append]
  rw [cdirBytes_ovEntriesFrom, ovEntriesFrom_length]
  rcases Nat.eq_zero_or_pos cs with hcs | hcs
  · subst hcs
    simp [streamBytes_zero, List.length_append, Nat.add_sub_cancel_left]
  · have hgt : cs > 0 := hcs
    simp only [if_pos hgt, List.length_append, Nat.add_sub_cancel_left]
    simp [List.append_assoc]

theorem claimC1_witness :
    (([c1Entry].map specLocalLen).sum ≤ 2 ^ 32) ∧
    (writeZip (fun i => i) 0 [c1Entry] true 0).1 =
      specLocalsBytes [c1Entry] ++ specCDirAll 0 [c1Entry] ++
      writeEOCD ([c1Entry] : List Entry).length (specCDirAll 0 [c1Entry]).length
        (specLocalsBytes [c1Entry]).length 0 ++
      streamBytes (fun i => i) 0 0 ++ writePoisonTail (fun i => i) (0 + 0) :=
  ⟨by decide, claimC1 (fun i => i) 0 0 [c1Entry] (by decide)⟩

/-- Claim C2 corrected: after the real EOCD record and the comment bytes, the
poison tail is exactly 32 random bytes, a 22-byte forged EOCD with
`entries_this_disk = entries_total = 0`, then 96 more random bytes — but the
forged record's `cd_size` field (offset 12) holds `0xFFFFFFFF` and its
`cd_offset` field (offset 16) holds `0x80000000`, the swap of the two
constants the claim names. -/
theorem claimC2 (s : Nat → Nat) (c cs : Nat) (entries : List Entry) :
    (∃ pre cnt sz st,
      (writeZip s c entries true cs).1 =
        pre ++ writeEOCD cnt sz st cs ++ streamBytes s c cs ++
        (streamBytes s (c + cs) 32 ++ specPoisonRecord ++
          streamBytes s (c + cs + 32) 96)) ∧
    specPoisonRecord.length = 22 ∧
    read32 specPoisonRecord 0 = sigEOCD ∧
    read16 specPoisonRecord 8 = 0 ∧ read16 specPoisonRecord 10 = 0 ∧
    read32 specPoisonRecord 12 = 0xFFFFFFFF ∧
    read32 specPoisonRecord 16 = 0x80000000 ∧
    read16 specPoisonRecord 20 = 0 := by
  constructor
  · rcases hw : writeLocals true [] entries with ⟨out0, ents⟩
    refine ⟨out0 ++ cdirBytes ents, ents.length,
      (out0 ++ cdirBytes ents).length - out0.length, out0.length, ?_⟩
    simp only [writeZip, hw]
    have hpt : ∀ c0 : Nat, writePoisonTail s c0 =
        streamBytes s c0 32 ++ specPoisonRecord ++ streamBytes s (c0 + 32) 96 := by
      intro c0
      simp [writePoisonTail, specPoisonRecord, le16, le32, sigEOCD]
    rcases Nat.eq_zero_or_pos cs with hcs | hcs
    · subst hcs
      simp [streamBytes_zero, hpt, List.append_assoc]
    · simp only [if_pos hcs, hpt]
      simp [List.append_assoc]
  · refine ⟨by decide, by decide, by decide, by decide, by decide, by decide, by decide⟩

/-- Claim C2 counterexample: in the archive built from one entry with
`overwrite_central_dir = true`, the forged EOCD begins 118 bytes before the
end (32 + 22 + 96 = 150); its `cd_size` field (bytes 12..15 of the record) is
`0xFFFFFFFF`, not the `0x80000000` the claim states, and its `cd_offset`
field is `0x80000000`, not `0xFFFFFFFF`. -/
theorem claimC2_counterexample :
    read32 (List.drop ((writeZip (fun i => i) 0 [c2Entry] true 0).1.length - 118)
      (writeZip (fun i => i) 0 [c2Entry] true 0).1) 12 ≠ 0x80000000 ∧
    read32 (List.drop ((writeZip (fun i => i) 0 [c2Entry] true 0).1.length - 118)
      (writeZip (fun i => i) 0 [c2Entry] true 0).1) 16 ≠ 0xFFFFFFFF ∧
    read32 (List.drop ((writeZip (fun i => i) 0 [c2Entry] true 0).1.length - 118)
      (writeZip (fun i => i) 0 [c2Entry] true 0).1) 0 = sigEOCD := by
  refine ⟨by decide, by decide, by decide⟩

/-- Claim C6 counterexample: the S1 archive has no central-directory
signature at offset 35 and no EOCD signature at offset 81, and its total
length is not the 103 bytes the claimed offsets imply — the claim's
arithmetic (`30 + 0 + 5`) forgets the 5 name bytes after each header. -/
theorem claimC6_counterexample :
    runEncryptModel c6Config [c6File] (fun _ l => l) (fun _ => 0) =
      Except.ok c6Out ∧
    read32 c6Out 35 ≠ sigCDir ∧ read32 c6Out 81 ≠ sigEOCD ∧
    c6Out.length ≠ 103 := by
  refine ⟨by rfl, by decide, by decide, by decide⟩

/-- Claim C6 corrected: the S1 archive has exactly one local header, at
offset 0, with `crc = 0x3610A686` and `csize = usize = 5`; the central
directory starts at offset 40 (= 30 + 5 name bytes + 5 payload bytes), the
EOCD at offset 91 (= 40 + 46 + 5), the EOCD's `cd_offset` field records 40
and its `cd_size` field 51, and the archive ends right after the 22-byte
EOCD (113 bytes, no trailing bytes). -/
theorem claimC6 :
    runEncryptModel c6Config [c6File] (fun _ l => l) (fun _ => 0) =
      Except.ok c6Out ∧
    read32 c6Out 0 = sigLocal ∧
    read32 c6Out 14 = 0x3610A686 ∧
    read32 c6Out 18 = 5 ∧ read32 c6Out 22 = 5 ∧
    read32 c6Out 40 = sigCDir ∧
    read32 c6Out 91 = sigEOCD ∧
    read32 c6Out 103 = 51 ∧ read32 c6Out 107 = 40 ∧
    c6Out.length = 113 ∧
    (scanPositions c6Out = [0]) := by
  refine ⟨by rfl, by decide, by decide, by decide, by decide, by decide,
    by decide, by decide, by decide, by decide, by decide⟩

/-- Claim C7 counterexample: `A` is a letter yet scores 0, not the +2 the
claimed per-character table assigns to every letter (the code's extra
`ContainsRune("A?NA", ch)` clause subtracts 2 from `A`, `?` and `N`). -/
theorem claimC7_counterexample :
    goIsLetter 'A' = true ∧ scoreChar 'A' ≠ 2 ∧ scoreName ['A'] ≠ 2 ∧
    specScoreChar 'A' = 2 := by
  refine ⟨by decide, by decide, by decide, by decide⟩

/-- Claim C7 corrected: the per-character score is the claimed table
(`specScoreChar`, the spec's categories in the code's test order) minus a
further 2 whenever the character is `A`, `?` or `N`. -/
theorem claimC7 (c : Char) :
    scoreChar c = specScoreChar c -
      (if c = 'A' ∨ c = '?' ∨ c = 'N' then 2 else 0) := by
  by_cases h : c = 'A' ∨ c = '?' ∨ c = 'N'
  · have hb : (c = 'A' || c = '?' || c = 'N') = true := by
      rcases h with h | h | h <;> simp [h]
    simp only [scoreChar, specScoreChar, hb, if_true, if_pos h]
  · have hb : (c = 'A' || c = '?' || c = 'N') = false := by
      push_neg at h
      simp [h.1, h.2.1, h.2.2]
    simp only [scoreChar, specScoreChar, hb, Bool.false_eq_true, if_false,
      if_neg h]
    omega

/-- Claim C8 counterexample: the buffer holds one recoverable entry (with a
working filesystem the scan recovers `a` with contents `[65]`), yet when
every `MkdirAll`/`WriteFile` call on the output directory fails, `recoverZip`
still returns success with a zero count — an I/O error on the output/staging
directory is not fatal, contrary to the claim's characterisation of the
fatal set. -/
theorem claimC8_counterexample :
    recoverScan (fun _ => none) (fun _ => true) (fun _ => true) c8Buf =
      (1, [(['a'], [65])]) ∧
    recoverZipModel (some c8Buf) (fun _ => none) (fun _ => false)
      (fun _ => false) = Except.ok 0 := by
  refine ⟨by decide, by rfl⟩

/-- Claim C8 corrected: the scanner never aborts on a per-entry failure — for
any buffer, decoder and (possibly failing) filesystem the scan completes and
`recoverZip` returns success; the only fatal error is failure to read the
input archive itself. -/
theorem claimC8 (input : Option (List Nat))
    (inflate : List Nat → Option (List Nat)) (mkdirOk writeOk : List Char → Bool) :
    (∃ e, recoverZipModel input inflate mkdirOk writeOk = Except.error e) ↔
      input = none := by
  cases input with
  | none => simp [recoverZipModel]
  | some buf => simp [recoverZipModel]

/-- Claim C3 counterexample: the CP1251-representable single-character name
`с` (U+0441) encodes to byte `0xF1`, which CP866 decodes to the letter `ё`;
both candidates score +2 and the code keeps the earlier CP866 candidate, so
the decode returns `ё`, not `с`. -/
theorem claimC3_counterexample :
    encodeCP1251 ['с'] = some [241] ∧
    decodeFilename [241] 0 = some ['ё'] ∧
    (['ё'] : List Char) ≠ ['с'] := by
  refine ⟨by decide, by decide, by decide⟩

/-! ## CP1251 round-trip machinery (claim C3) -/
theorem tableDecodeByte_encodeByte (c : Char) (b : Nat)
    (h : cp1251EncodeByte c = some b) :
    tableDecodeByte cp1251Table b = c := by
  unfold cp1251EncodeByte at h
  by_cases hc : c.toNat < 0x80
  · rw [if_pos hc] at h
    have hb : b = c.toNat := by
      simpa using h.symm
    subst hb
    unfold tableDecodeByte
    rw [if_pos hc]
    exact Char.ofNat_toNat c
  · rw [if_neg hc] at h
    obtain ⟨i, hfind, hb⟩ := Option.map_eq_some'.mp h
    have hp : cp1251Decode.getD i 0 = c.toNat := by
      have := List.find?_some hfind
      exact of_decide_eq_true this
    have hilt : i < 128 := by
      have := List.mem_of_find?_eq_some hfind
      simpa using this
    have hi24 : i ≠ 24 := by
      intro h24
      subst h24
      have h0 : cp1251Decode.getD 24 0 = 0 := by decide
      rw [h0] at hp
      omega
    have htab : ∀ j : Nat, j < 128 → j ≠ 24 →
        cp1251Table.getD j 0 = cp1251Decode.getD j 0 := by decide
    subst hb
    unfold tableDecodeByte
    rw [if_neg (by omega)]
    have harg : 0x80 + i - 0x80 = i := by omega
    rw [harg, htab i hilt hi24, hp]
    exact Char.ofNat_toNat c

theorem decodeTable_encodeCP1251 (s : List Char) (bytes : List Nat)
    (h : encodeCP1251 s = some bytes) :
    decodeTable cp1251Table bytes = s := by
  induction s generalizing bytes with
  | nil =>
    simp only [encodeCP1251, Option.some.injEq] at h
    subst h
    rfl
  | cons c rest ih =>
    simp only [encodeCP1251] at h
    rcases hb : cp1251EncodeByte c with _ | b <;> rw [hb] at h
    · exact absurd h (by simp)
    · rcases hr : encodeCP1251 rest with _ | bs <;> rw [hr] at h
      · exact absurd h (by simp)
      · simp only [Option.some.injEq] at h
        subst h
        simp only [decodeTable, List.map_cons]
        rw [show List.map (tableDecodeByte cp1251Table) bs =
          decodeTable cp1251Table bs from rfl]
        rw [ih bs hr, tableDecodeByte_encodeByte c b hb]

theorem bestCandidate_mem (first : Int × List Char)
    (rest : List (Int × List Char)) :
    bestCandidate first rest ∈ first :: rest := by
  induction rest generalizing first with
  | nil => simp [bestCandidate]
  | cons y ys ih =>
    simp only [bestCandidate, List.foldl_cons]
    by_cases hy : y.1 > first.1
    · rw [if_pos hy]
      have h := ih y
      simp only [bestCandidate] at h
      rcases List.mem_cons.mp h with h1 | h1
      · rw [h1]
        exact List.mem_cons_of_mem _ (List.mem_cons_self _ _)
      · exact List.mem_cons_of_mem _ (List.mem_cons_of_mem _ h1)
    · rw [if_neg hy]
      have h := ih first
      simp only [bestCandidate] at h
      rcases List.mem_cons.mp h with h1 | h1
      · rw [h1]
        exact List.mem_cons_self _ _
      · exact List.mem_cons_of_mem _ (List.mem_cons_of_mem _ h1)

theorem bestCandidate_le (first : Int × List Char)
    (rest : List (Int × List Char)) (x : Int × List Char)
    (hx : x ∈ first :: rest) :
    x.1 ≤ (bestCandidate first rest).1 := by
  induction rest generalizing first x with
  | nil =>
    rcases List.mem_cons.mp hx with h1 | h1
    · subst h1; simp [bestCandidate]
    · simp at h1
  | cons y ys ih =>
    simp only [bestCandidate, List.foldl_cons]
    by_cases hy : y.1 > first.1
    · rw [if_pos hy]
      have hbase : ∀ z : Int × List Char, z ∈ y :: ys →
          z.1 ≤ (bestCandidate y ys).1 := fun z hz => ih y z hz
      simp only [bestCandidate] at hbase
      rcases List.mem_cons.mp hx with h1 | h1
      · subst h1
        have := hbase y (List.mem_cons_self _ _)
        omega
      · exact hbase x h1
    · rw [if_neg hy]
      have hbase : ∀ z : Int × List Char, z ∈ first :: ys →
          z.1 ≤ (bestCandidate first ys).1 := fun z hz => ih first z hz
      simp only [bestCandidate] at hbase
      rcases List.mem_cons.mp hx with h1 | h1
      · subst h1
        exact hbase x (List.mem_cons_self _ _)
      · rcases List.mem_cons.mp h1 with h2 | h2
        · subst h2
          have := hbase first (List.mem_cons_self _ _)
          omega
        · exact hbase x (List.mem_cons_of_mem _ h2)

theorem bestCandidate_score (first : Int × List Char)
    (rest : List (Int × List Char))
    (h : ∀ x ∈ first :: rest, x.1 = scoreName x.2) (x : Int × List Char)
    (hx : x ∈ first :: rest) :
    scoreName x.2 ≤ scoreName (bestCandidate first rest).2 := by
  calc scoreName x.2 = x.1 := (h x hx).symm
    _ ≤ (bestCandidate first rest).1 := bestCandidate_le first rest x hx
    _ = scoreName (bestCandidate first rest).2 :=
        h _ (bestCandidate_mem first rest)

/-- Claim C3 corrected: decoding the CP1251 encoding of `s` with flag bit 11
clear always offers `s` itself as the CP1251 candidate (the code-page
round-trip is exact) and returns a candidate scoring at least `scoreName s`;
but ties are broken towards the earlier CP866 candidate, so the result need
not be `s` (see the counterexample).  For the S5 name the CP1251 decoding
outscores the alternatives strictly and is returned. -/
theorem claimC3 (s : List Char) (bytes : List Nat)
    (h : encodeCP1251 s = some bytes) :
    (∃ r, decodeFilename bytes 0 = some r ∧ scoreName s ≤ scoreName r) ∧
    decodeTable cp1251Table bytes = s ∧
    (encodeCP1251 s5Name).bind (fun b => decodeFilename b 0) = some s5Name := by
  have hdec : decodeTable cp1251Table bytes = s := decodeTable_encodeCP1251 s bytes h
  refine ⟨?_, hdec, by decide⟩
  have hflag : ¬ ((0 : Nat) &&& flagUTF8 ≠ 0) := by decide
  cases hu : utf8Decode bytes with
  | none =>
    have hEq : decodeFilename bytes 0 = some (bestCandidate
        (scoreName (decodeTable cp866Table bytes), decodeTable cp866Table bytes)
        [(scoreName (decodeTable cp1251Table bytes), decodeTable cp1251Table bytes),
         (scoreName (decodeTable cp437Table bytes), decodeTable cp437Table bytes)]).2 := by
      simp [decodeFilename, hu, hflag]
    refine ⟨_, hEq, ?_⟩
    have hpairs : ∀ x ∈ ((scoreName (decodeTable cp866Table bytes),
        decodeTable cp866Table bytes) ::
        [(scoreName (decodeTable cp1251Table bytes), decodeTable cp1251Table bytes),
         (scoreName (decodeTable cp437Table bytes), decodeTable cp437Table bytes)]),
        x.1 = scoreName x.2 := by
      intro x hx
      rcases List.mem_cons.mp hx with h1 | h1
      · subst h1; rfl
      · rcases List.mem_cons.mp h1 with h2 | h2
        · subst h2; rfl
        · rcases List.mem_cons.mp h2 with h3 | h3
          · subst h3; rfl
          · simp at h3
    have hb := bestCandidate_score _ _ hpairs
      (scoreName (decodeTable cp1251Table bytes), decodeTable cp1251Table bytes)
      (by simp)
    simpa [hdec] using hb
  | some u =>
    have hEq : decodeFilename bytes 0 = some (bestCandidate (scoreName u, u)
        [(scoreName (decodeTable cp866Table bytes), decodeTable cp866Table bytes),
         (scoreName (decodeTable cp1251Table bytes), decodeTable cp1251Table bytes),
         (scoreName (decodeTable cp437Table bytes), decodeTable cp437Table bytes)]).2 := by
      simp [decodeFilename, hu, hflag]
    refine ⟨_, hEq, ?_⟩
    have hpairs : ∀ x ∈ ((scoreName u, u) ::
        [(scoreName (decodeTable cp866Table bytes), decodeTable cp866Table bytes),
         (scoreName (decodeTable cp1251Table bytes), decodeTable cp1251Table bytes),
         (scoreName (decodeTable cp437Table bytes), decodeTable cp437Table bytes)]),
        x.1 = scoreName x.2 := by
      intro x hx
      rcases List.mem_cons.mp hx with h1 | h1
      · subst h1; rfl
      · rcases List.mem_cons.mp h1 with h2 | h2
        · subst h2; rfl
        · rcases List.mem_cons.mp h2 with h3 | h3
          · subst h3; rfl
          · rcases List.mem_cons.mp h3 with h4 | h4
            · subst h4; rfl
            · simp at h4
    have hb := bestCandidate_score _ _ hpairs
      (scoreName (decodeTable cp1251Table bytes), decodeTable cp1251Table bytes)
      (by simp)
    simpa [hdec] using hb

theorem claimC3_witness :
    encodeCP1251 ['с'] = some [241] ∧
    ((∃ r, decodeFilename [241] 0 = some r ∧
        scoreName ['с'] ≤ scoreName r) ∧
      decodeTable cp1251Table [241] = ['с'] ∧
      (encodeCP1251 s5Name).bind (fun b => decodeFilename b 0) = some s5Name) :=
  ⟨by decide, claimC3 ['с'] [241] (by decide)⟩

theorem inflateLoop_eq_firstSuccess (inflate : List Nat → Option (List Nat))
    (buf : List Nat) (start : Nat) :
    ∀ (l : List Nat) (tries : Nat), tries ≤ 20000 →
    inflateLoop inflate buf start l tries =
      firstSuccess inflate (((l.take (20001 - tries)).filter
        (fun e => e > start)).map (fun e => sliceBytes buf start e)) := by
  intro l
  induction l with
  | nil => intro tries _; simp [inflateLoop, firstSuccess]
  | cons e rest ih =>
    intro tries htr
    have htake : (e :: rest).take (20001 - tries) =
        e :: rest.take (20000 - tries) := by
      have : 20001 - tries = (20000 - tries) + 1 := by omega
      rw [this, List.take_succ_cons]
    rw [htake]
    by_cases he : e > start
    · have hd : decide (e > start) = true := by simpa using he
      simp only [List.filter_cons, hd, if_true, List.map_cons]
      simp only [inflateLoop, if_pos he]
      rcases hinf : inflate (sliceBytes buf start e) with _ | out
      · simp only [firstSuccess, hinf]
        by_cases hcap : tries + 1 > 20000
        · have h20 : tries = 20000 := by omega
          subst h20
          simp only [if_pos hcap]
          simp [firstSuccess]
        · rw [if_neg hcap, ih (tries + 1) (by omega)]
          have h21 : 20001 - (tries + 1) = 20000 - tries := by omega
          rw [h21]
      · simp [firstSuccess, hinf]
    · have hd : decide (e > start) = false := by simpa using he
      simp only [List.filter_cons, hd, Bool.false_eq_true, if_false]
      simp only [inflateLoop, if_neg he]
      by_cases hcap : tries + 1 > 20000
      · have h20 : tries = 20000 := by omega
        subst h20
        simp only [if_pos hcap]
        simp [firstSuccess]
      · rw [if_neg hcap, ih (tries + 1) (by omega)]
        have h21 : 20001 - (tries + 1) = 20000 - tries := by omega
        rw [h21]

/-- Claim C4 corrected: (i) incremental bracket inflation tries successive
next-candidate boundaries as raw-DEFLATE windows in order, accepting the
first success, with attempts capped at 20 001 brackets (the code's cap test
is post-increment) before falling back to the window running to the end of
the buffer; (ii) it is used exactly for method-8 candidates — a method-0
candidate with flag bit 3 set is skipped outright (contrary to the claim's
"any candidate whose gp_flags bit 3 is set"); (iii) method 0 without bit 3
takes the stored `csize` bytes when they fit, else nothing; (iv) any other
method is skipped. -/
theorem claimC4 :
    (∀ (inflate : List Nat → Option (List Nat)) (buf : List Nat)
      (start : Nat) (positions : List Nat) (i : Nat),
      inflateIncremental inflate buf start positions i =
        match firstSuccess inflate (bracketWindows buf start positions i) with
        | some out => some out
        | none => if start < buf.length then inflate (buf.drop start) else none) ∧
    (∀ inflate buf positions idx (h : LocalHeader), h.comp = 8 →
      candidateContent inflate buf positions idx h =
        inflateIncremental inflate buf h.dataOff positions idx) ∧
    (∀ inflate buf positions idx (h : LocalHeader), h.comp = 0 →
      h.flags &&& flagDataDesc ≠ 0 →
      candidateContent inflate buf positions idx h = none) ∧
    (∀ inflate buf positions idx (h : LocalHeader), h.comp = 0 →
      h.flags &&& flagDataDesc = 0 →
      candidateContent inflate buf positions idx h =
        (if h.dataOff + h.csize ≤ buf.length then
          some (sliceBytes buf h.dataOff (h.dataOff + h.csize)) else none)) ∧
    (∀ inflate buf positions idx (h : LocalHeader), h.comp ≠ 8 → h.comp ≠ 0 →
      candidateContent inflate buf positions idx h = none) := by
  refine ⟨?_, ?_, ?_, ?_, ?_⟩
  · intro inflate buf start positions i
    unfold inflateIncremental bracketWindows
    rw [inflateLoop_eq_firstSuccess inflate buf start _ 0 (by omega)]
  · intro inflate buf positions idx h h8
    simp [candidateContent, h8]
  · intro inflate buf positions idx h h0 hflag
    have h8 : h.comp ≠ 8 := by omega
    simp only [candidateContent, h8, if_false]
    have : ¬ (h.comp = 0 && h.flags &&& flagDataDesc = 0) = true := by
      simp [h0, hflag]
    rw [if_neg this]
  · intro inflate buf positions idx h h0 hflag
    have h8 : h.comp ≠ 8 := by omega
    simp only [candidateContent, h8, if_false]
    have : (h.comp = 0 && h.flags &&& flagDataDesc = 0) = true := by
      simp [h0, hflag]
    rw [if_pos this]
  · intro inflate buf positions idx h h8 h0
    simp only [candidateContent, h8, if_false]
    have : ¬ (h.comp = 0 && h.flags &&& flagDataDesc = 0) = true := by
      simp [h0]
    rw [if_neg this]

/-- Claim C4 counterexample: a candidate with gp_flags bit 3 set but method
0 parses fine, and bracket inflation over its payload window would succeed
(the decoder accepts the end-of-buffer window), yet the scanner extracts
nothing and skips the entry: bit 3 alone does not route a candidate through
incremental inflation. -/
theorem claimC4_counterexample :
    parseLocalHeader c4Buf 0 = some ⟨0, 8, 0, 0, ['a'], 31⟩ ∧
    inflateIncremental (fun _ => some [1, 2, 3]) c4Buf 31
      (scanPositions c4Buf) 0 = some [1, 2, 3] ∧
    recoverScan (fun _ => some [1, 2, 3]) (fun _ => true) (fun _ => true)
      c4Buf = (0, []) := by
  refine ⟨by decide, by decide, by decide⟩

theorem claimC4_witness :
    ((⟨0, 8, 0, 0, ['a'], 31⟩ : LocalHeader).comp = 0 ∧
      (⟨0, 8, 0, 0, ['a'], 31⟩ : LocalHeader).flags &&& flagDataDesc ≠ 0) ∧
    candidateContent (fun _ => some [1, 2, 3]) c4Buf (scanPositions c4Buf) 0
      ⟨0, 8, 0, 0, ['a'], 31⟩ = none :=
  ⟨⟨by decide, by decide⟩,
    claimC4.2.2.1 (fun _ => some [1, 2, 3]) c4Buf (scanPositions c4Buf) 0
      ⟨0, 8, 0, 0, ['a'], 31⟩ (by decide) (by decide)⟩

/-- Claim C10: whenever `DictSize ≠ 32768`, `RunEncrypt` fails with a
configuration error determined by the `Config` alone — the result is the same
error for every file tree, compressor and random stream, so no input is read
and no output is written (the dict-size check sits with the other option
validations ahead of `listFiles`; an earlier option error may fire first, but
the run still fails on configuration alone). -/
theorem claimC10 (cfg : Config) (h : cfg.DictSize ≠ 32768) :
    ∃ m, ∀ (files : List SrcFile) (deflate : Int → List Nat → List Nat)
      (s : Nat → Nat), runEncryptModel cfg files deflate s = Except.error m := by
  by_cases h1 : cfg.CommentSize < 0 ∨ cfg.CommentSize > 65535
  · refine ⟨"comment-size must be in range 0..65535", fun files d s => ?_⟩
    have hb : (decide (cfg.CommentSize < 0) ||
        decide (cfg.CommentSize > 65535)) = true := by
      rcases h1 with h1 | h1 <;> simp [h1]
    simp [runEncryptModel, archivePlan, hb]
  · have hb1 : (decide (cfg.CommentSize < 0) ||
        decide (cfg.CommentSize > 65535)) = false := by
      push_neg at h1
      simp [h1.1, h1.2]
    by_cases h2 : cfg.NoiseFiles < 0 ∨ cfg.NoiseSize < 0
    · refine ⟨"noise-files and noise-size must be >= 0", fun files d s => ?_⟩
      have hb : (decide (cfg.NoiseFiles < 0) ||
          decide (cfg.NoiseSize < 0)) = true := by
        rcases h2 with h2 | h2 <;> simp [h2]
      simp [runEncryptModel, archivePlan, hb1, hb]
    · have hb2 : (decide (cfg.NoiseFiles < 0) ||
          decide (cfg.NoiseSize < 0)) = false := by
        push_neg at h2
        simp [h2.1, h2.2]
      by_cases h3 : cfg.Level < 0 ∨ cfg.Level > 9
      · refine ⟨"level must be in range 0..9", fun files d s => ?_⟩
        have hb : (decide (cfg.Level < 0) || decide (cfg.Level > 9)) = true := by
          rcases h3 with h3 | h3 <;> simp [h3]
        simp [runEncryptModel, archivePlan, hb1, hb2, hb]
      · have hb3 : (decide (cfg.Level < 0) || decide (cfg.Level > 9)) = false := by
          push_neg at h3
          simp [h3.1, h3.2]
        refine ⟨"dict-size must be 32768 (Go stdlib deflate uses fixed 32 KB window)",
          fun files d s => ?_⟩
        simp [runEncryptModel, archivePlan, hb1, hb2, hb3, h]

theorem claimC10_witness :
    c10Config.DictSize ≠ 32768 ∧
    ∃ m, ∀ (files : List SrcFile) (deflate : Int → List Nat → List Nat)
      (s : Nat → Nat),
      runEncryptModel c10Config files deflate s = Except.error m :=
  ⟨by decide, claimC10 c10Config (by decide)⟩

/-! ## Entry ordering (claim C9) -/
theorem charListLt_irrefl : ∀ a : List Char, charListLt a a = false := by
  intro a
  induction a with
  | nil => rfl
  | cons c rest ih => simp [charListLt, ih]

theorem charListLt_trans : ∀ a b c : List Char,
    charListLt a b = true → charListLt b c = true → charListLt a c = true := by
  intro a
  induction a with
  | nil =>
    intro b c hab hbc
    cases c with
    | nil =>
      cases b with
      | nil => exact absurd hab (by simp [charListLt])
      | cons y ys => exact absurd hbc (by simp [charListLt])
    | cons z zs => simp [charListLt]
  | cons x xs ih =>
    intro b c hab hbc
    cases b with
    | nil => exact absurd hab (by simp [charListLt])
    | cons y ys =>
      cases c with
      | nil => exact absurd hbc (by simp [charListLt])
      | cons z zs =>
        simp only [charListLt] at hab hbc ⊢
        by_cases hxy : x.toNat < y.toNat
        · by_cases hyz : y.toNat < z.toNat
          · rw [if_pos (by omega)]
          · rw [if_neg hyz] at hbc
            by_cases hzy : z.toNat < y.toNat
            · rw [if_pos hzy] at hbc
              exact absurd hbc (by simp)
            · rw [if_pos (by omega)]
        · rw [if_neg hxy] at hab
          by_cases hyx : y.toNat < x.toNat
          · rw [if_pos hyx] at hab
            exact absurd hab (by simp)
          · rw [if_neg hyx] at hab
            have hxy2 : x.toNat = y.toNat := by omega
            by_cases hyz : y.toNat < z.toNat
            · rw [if_pos (by omega)]
            · rw [if_neg hyz] at hbc
              by_cases hzy : z.toNat < y.toNat
              · rw [if_pos hzy] at hbc
                exact absurd hbc (by simp)
              · rw [if_neg hzy] at hbc
                rw [if_neg (by omega), if_neg (by omega)]
                exact ih ys zs hab hbc

theorem charListLt_connex : ∀ a b : List Char,
    charListLt a b = false → charListLt b a = false → a = b := by
  intro a
  induction a with
  | nil =>
    intro b hab _
    cases b with
    | nil => rfl
    | cons y ys => exact absurd hab (by simp [charListLt])
  | cons x xs ih =>
    intro b hab hba
    cases b with
    | nil => exact absurd hba (by simp [charListLt])
    | cons y ys =>
      simp only [charListLt] at hab hba
      by_cases hxy : x.toNat < y.toNat
      · rw [if_pos hxy] at hab
        exact absurd hab (by simp)
      · rw [if_neg hxy] at hab
        by_cases hyx : y.toNat < x.toNat
        · rw [if_pos hyx] at hba
          exact absurd hba (by simp)
        · rw [if_neg hyx] at hab
          rw [if_neg (by omega), if_neg (by omega)] at hba
          have hn : x.toNat = y.toNat := by omega
          have hchar : x = y := Char.ext (UInt32.ext hn)
          rw [hchar, ih ys hab hba]

theorem compressFile_name (encName : List Char → Option (List Nat))
    (nameFlag method : Nat) (useDeflate : Bool)
    (deflate : Int → List Nat → List Nat) (levelVal : Int) (fixedTime : Bool)
    (f : SrcFile) (ent : Entry)
    (h : compressFile encName nameFlag method useDeflate deflate levelVal
      fixedTime f = Except.ok ent) :
    ent.name = (encName f.rel.data).getD [] := by
  unfold compressFile at h
  rcases he : encName f.rel.data with _ | nb <;> rw [he] at h
  · exact absurd h (by simp)
  · dsimp only at h
    by_cases hd : useDeflate
    · rw [if_pos hd] at h
      simp only [Except.ok.injEq] at h
      rw [← h]
      simp
    · rw [if_neg hd] at h
      simp only [Except.ok.injEq] at h
      rw [← h]
      simp

theorem mapM_compressFile_names (encName : List Char → Option (List Nat))
    (nameFlag method : Nat) (useDeflate : Bool)
    (deflate : Int → List Nat → List Nat) (levelVal : Int) (fixedTime : Bool) :
    ∀ (items : List SrcFile) (ents : List Entry),
    items.mapM (compressFile encName nameFlag method useDeflate deflate
      levelVal fixedTime) = Except.ok ents →
    ents.map (fun e => e.name) =
      items.map (fun f => (encName f.rel.data).getD []) := by
  intro items
  induction items with
  | nil =>
    intro ents h
    simp only [List.mapM_nil, pure, Except.pure, Except.ok.injEq] at h
    rw [← h]
    rfl
  | cons f rest ih =>
    intro ents h
    rw [List.mapM_cons] at h
    rcases hf : compressFile encName nameFlag method useDeflate deflate
        levelVal fixedTime f with _ | ent <;>
      rw [hf] at h <;>
      simp only [bind, Except.bind] at h
    · exact absurd h (by simp)
    · rcases hr : rest.mapM (compressFile encName nameFlag method useDeflate
          deflate levelVal fixedTime) with _ | bs <;> rw [hr] at h
      · exact absurd h (by simp)
      · simp only [pure, Except.pure, Except.ok.injEq] at h
        rw [← h]
        simp only [List.map_cons]
        rw [compressFile_name _ _ _ _ _ _ _ _ _ hf, ih bs hr]

theorem makeNoiseEntry_spec (s : Nat → Nat) (cursor : Nat) (name : List Char)
    (encName : List Char → Option (List Nat)) (nameFlag method : Nat)
    (useDeflate : Bool) (deflate : Int → List Nat → List Nat) (levelVal : Int)
    (fixedTime : Bool) (size : Nat) (ent : Entry) (cur1 : Nat)
    (h : makeNoiseEntry s cursor name encName nameFlag method useDeflate
      deflate levelVal fixedTime size = Except.ok (ent, cur1)) :
    ent.name = (encName name).getD [] ∧ cur1 = cursor + size := by
  unfold makeNoiseEntry at h
  rcases he : encName name with _ | nb <;> rw [he] at h
  · exact absurd h (by simp)
  · dsimp only at h
    by_cases hd : useDeflate
    · rw [if_pos hd] at h
      simp only [Except.ok.injEq, Prod.mk.injEq] at h
      refine ⟨?_, h.2.symm⟩
      rw [← h.1]
      simp
    · rw [if_neg hd] at h
      simp only [Except.ok.injEq, Prod.mk.injEq] at h
      refine ⟨?_, h.2.symm⟩
      rw [← h.1]
      simp

theorem buildNoise_spec (s : Nat → Nat)
    (encName : List Char → Option (List Nat)) (nameFlag method : Nat)
    (useDeflate : Bool) (deflate : Int → List Nat → List Nat) (levelVal : Int)
    (fixedTime : Bool) (size : Nat) :
    ∀ (rem i cursor : Nat) (ents : List Entry) (cur1 : Nat),
    buildNoise s encName nameFlag method useDeflate deflate levelVal
      fixedTime size i rem cursor = Except.ok (ents, cur1) →
    cur1 = cursor + rem * (6 + size) ∧
    ents.map (fun e => e.name) = (List.range rem).map (fun k =>
      (encName (junkName (i + k)
        (randHexChars s (cursor + k * (6 + size)) 6))).getD []) := by
  intro rem
  induction rem with
  | zero =>
    intro i cursor ents cur1 h
    simp only [buildNoise, Except.ok.injEq, Prod.mk.injEq] at h
    refine ⟨by omega, ?_⟩
    rw [← h.1]
    rfl
  | succ rem ih =>
    intro i cursor ents cur1 h
    simp only [buildNoise] at h
    rcases hm : makeNoiseEntry s (cursor + 6)
        (junkName i (randHexChars s cursor 6)) encName nameFlag method
        useDeflate deflate levelVal fixedTime size with _ | p <;>
      rw [hm] at h <;> simp only [bind, Except.bind] at h
    · exact absurd h (by simp)
    · rcases p with ⟨ent, cursor1⟩
      rcases hb : buildNoise s encName nameFlag method useDeflate deflate
          levelVal fixedTime size (i + 1) rem cursor1 with _ | q <;>
        rw [hb] at h
      · exact absurd h (by simp)
      · rcases q with ⟨rest, cursor2⟩
        simp only [pure, Except.pure, Except.ok.injEq, Prod.mk.injEq] at h
        obtain ⟨hents, hcur⟩ := h
        obtain ⟨hname, hc1⟩ := makeNoiseEntry_spec _ _ _ _ _ _ _ _ _ _ _ _ _ hm
        obtain ⟨hcur2, hnames⟩ := ih (i + 1) cursor1 rest cursor2 hb
        subst hents hcur hc1
        constructor
        · rw [hcur2]
          ring
        · simp only [List.map_cons, hname, hnames]
          rw [List.range_succ_eq_map, List.map_cons, List.map_map]
          congr 1
          · rw [show i + 0 = i from rfl, show cursor + 0 * (6 + size) = cursor by ring]
          · apply List.map_congr_left
            intro k _
            simp only [Function.comp]
            rw [show i + 1 + k = i + (k + 1) by omega,
              show cursor + 6 + size + k * (6 + size) =
                cursor + (k + 1) * (6 + size) by ring]

/-- What a successful `archivePlan` contains: the encoder announced by the
configuration, the real entries' names in sorted `rel` order, the noise
entries' names in index order (entry `k`'s hex drawn at stream offset
`k * (6 + noise_size)`), and the final cursor after all noise draws. -/
theorem archivePlan_ok_spec (cfg : Config) (files : List SrcFile)
    (deflate : Int → List Nat → List Nat) (s : Nat → Nat)
    (ents : List Entry) (cur : Nat)
    (h : archivePlan cfg files deflate s = Except.ok (ents, cur)) :
    ∃ enc flag realEnts noiseEnts,
      makeNameEncoder cfg.Encoding = Except.ok (enc, flag) ∧
      ents = realEnts ++ noiseEnts ∧
      realEnts.map (fun e => e.name) =
        (sortFiles files).map (fun f => (enc f.rel.data).getD []) ∧
      noiseEnts.map (fun e => e.name) =
        (List.range cfg.NoiseFiles.toNat).map (fun k =>
          (enc (junkName k
            (randHexChars s (k * (6 + cfg.NoiseSize.toNat)) 6))).getD []) ∧
      cur = cfg.NoiseFiles.toNat * (6 + cfg.NoiseSize.toNat) := by
  unfold archivePlan at h
  dsimp only at h
  split at h
  · exact absurd h (by simp)
  · split at h
    · exact absurd h (by simp)
    · split at h
      · exact absurd h (by simp)
      · split at h
        · exact absurd h (by simp)
        · split at h
          · exact absurd h (by simp)
          · split at h
            · exact absurd h (by simp)
            · split at h
              · exact absurd h (by simp)
              · split at h
                · exact absurd h (by simp)
                · rename_i enc flag heq
                  split at h
                  · exact absurd h (by simp)
                  · rename_i realEnts hmap
                    split at h
                    · exact absurd h (by simp)
                    all_goals
                      rename_i hnoise
                    all_goals
                      simp only [Except.ok.injEq, Prod.mk.injEq] at h
                    all_goals
                      obtain ⟨hents, hcur⟩ := h
                    all_goals
                      obtain ⟨hcursor, hnames⟩ :=
                        buildNoise_spec _ _ _ _ _ _ _ _ _ _ _ _ _ _ hnoise
                    all_goals
                      refine ⟨enc, flag, realEnts, _, heq, hents.symm,
                        mapM_compressFile_names _ _ _ _ _ _ _ _ realEnts hmap,
                        ?_, ?_⟩
                    all_goals
                      first
                      | (rw [← hcur, hcursor]
                         omega)
                      | (rw [hnames]
                         apply List.map_congr_left
                         intro k _
                         rw [show (0 : Nat) + k = k by omega,
                           show 0 + k * (6 + cfg.NoiseSize.toNat) =
                             k * (6 + cfg.NoiseSize.toNat) by omega])

/-- Claim C9 corrected: in every successful build the archive's entry list is
the real entries in nondecreasing order of their `rel` names (Go string
order, i.e. code-point/UTF-8 byte order — not, in general, the order of the
*encoded* name bytes, see the counterexample), followed by the noise entries
in index order 0..N−1. -/
theorem claimC9 (cfg : Config) (files : List SrcFile)
    (deflate : Int → List Nat → List Nat) (s : Nat → Nat)
    (ents : List Entry) (cur : Nat)
    (h : archivePlan cfg files deflate s = Except.ok (ents, cur)) :
    List.Sorted fileLe (sortFiles files) ∧
    ∃ enc flag realEnts noiseEnts,
      makeNameEncoder cfg.Encoding = Except.ok (enc, flag) ∧
      ents = realEnts ++ noiseEnts ∧
      realEnts.map (fun e => e.name) =
        (sortFiles files).map (fun f => (enc f.rel.data).getD []) ∧
      noiseEnts.map (fun e => e.name) =
        (List.range cfg.NoiseFiles.toNat).map (fun k =>
          (enc (junkName k
            (randHexChars s (k * (6 + cfg.NoiseSize.toNat)) 6))).getD []) := by
  constructor
  · haveI : IsTotal SrcFile fileLe := by
      constructor
      intro a b
      unfold fileLe charListLe
      by_cases h : charListLt b.rel.data a.rel.data = true
      · right
        rcases hba : charListLt a.rel.data b.rel.data with _ | _
        · simp
        · exfalso
          have h1 := charListLt_trans _ _ _ hba h
          rw [charListLt_irrefl] at h1
          exact absurd h1 (by simp)
      · left
        simp only [Bool.not_eq_true] at h
        simp [h]
    haveI : IsTrans SrcFile fileLe := by
      constructor
      intro a b c hab hbc
      unfold fileLe charListLe at hab hbc ⊢
      simp only [Bool.not_eq_true'] at hab hbc ⊢
      rcases hca : charListLt c.rel.data a.rel.data with _ | _
      · rfl
      · exfalso
        rcases hbc2 : charListLt b.rel.data c.rel.data with _ | _
        · have hbceq := charListLt_connex _ _ hbc2 hbc
          rw [hbceq] at hab
          rw [hab] at hca
          exact absurd hca (by simp)
        · have h1 := charListLt_trans _ _ _ hbc2 hca
          rw [hab] at h1
          exact absurd h1 (by simp)
    exact List.sorted_insertionSort fileLe files
  · obtain ⟨enc, flag, realEnts, noiseEnts, h1, h2, h3, h4, _⟩ :=
      archivePlan_ok_spec cfg files deflate s ents cur h
    exact ⟨enc, flag, realEnts, noiseEnts, h1, h2, h3, h4⟩

/-- Claim C9 counterexample: the cp1251 build of `{е, ё}` succeeds and lays
the real entries out as `[0xE5]` then `[0xB8]` — a strictly *decreasing*
sequence of encoded name bytes, refuting "lexicographically nondecreasing
order of their encoded name bytes". -/
theorem claimC9_counterexample :
    archivePlan c9Config c9Files (fun _ l => l) (fun _ => 0) =
      Except.ok (c9Ents, 0) ∧
    c9Ents.map (fun e => e.name) = [[229], [184]] ∧
    ¬ List.Pairwise (fun a b => byteListLe a b = true)
      (c9Ents.map (fun e => e.name)) := by
  refine ⟨by rfl, by decide, by decide⟩

theorem claimC9_witness :
    archivePlan c9Config c9Files (fun _ l => l) (fun _ => 0) =
      Except.ok (c9Ents, 0) ∧
    (List.Sorted fileLe (sortFiles c9Files) ∧
      ∃ enc flag realEnts noiseEnts,
        makeNameEncoder c9Config.Encoding = Except.ok (enc, flag) ∧
        c9Ents = realEnts ++ noiseEnts ∧
        realEnts.map (fun e => e.name) =
          (sortFiles c9Files).map (fun f => (enc f.rel.data).getD []) ∧
        noiseEnts.map (fun e => e.name) =
          (List.range c9Config.NoiseFiles.toNat).map (fun k =>
            (enc (junkName k (randHexChars (fun _ => 0)
              (k * (6 + c9Config.NoiseSize.toNat)) 6))).getD [])) :=
  ⟨by rfl, claimC9 c9Config c9Files (fun _ l => l) (fun _ => 0) c9Ents 0 (by rfl)⟩

/-! ## Seeded determinism and RNG draw order (claim C5) -/
theorem streamBytes_congr (s1 s2 : Nat → Nat) (c n : Nat)
    (h : ∀ i, i < c + n → s1 i = s2 i) :
    streamBytes s1 c n = streamBytes s2 c n := by
  unfold streamBytes
  apply List.map_congr_left
  intro i hi
  rw [h (c + i) (by simp at hi; omega)]

theorem writePoisonTail_congr (s1 s2 : Nat → Nat) (c : Nat)
    (h : ∀ i, i < c + 128 → s1 i = s2 i) :
    writePoisonTail s1 c = writePoisonTail s2 c := by
  unfold writePoisonTail
  rw [streamBytes_congr s1 s2 c 32 (fun i hi => h i (by omega)),
    streamBytes_congr s1 s2 (c + 32) 96 (fun i hi => h i (by omega))]

theorem randHexChars_congr (s1 s2 : Nat → Nat) (c n : Nat)
    (h : ∀ i, i < c + n → s1 i = s2 i) :
    randHexChars s1 c n = randHexChars s2 c n := by
  unfold randHexChars
  rw [streamBytes_congr s1 s2 c n h]

theorem makeNoiseEntry_congr (s1 s2 : Nat → Nat) (cursor : Nat)
    (name : List Char) (encName : List Char → Option (List Nat))
    (nameFlag method : Nat) (useDeflate : Bool)
    (deflate : Int → List Nat → List Nat) (levelVal : Int) (fixedTime : Bool)
    (size : Nat) (h : ∀ i, i < cursor + size → s1 i = s2 i) :
    makeNoiseEntry s1 cursor name encName nameFlag method useDeflate deflate
      levelVal fixedTime size =
    makeNoiseEntry s2 cursor name encName nameFlag method useDeflate deflate
      levelVal fixedTime size := by
  unfold makeNoiseEntry
  rw [streamBytes_congr s1 s2 cursor size h]

theorem buildNoise_congr (s1 s2 : Nat → Nat)
    (encName : List Char → Option (List Nat)) (nameFlag method : Nat)
    (useDeflate : Bool) (deflate : Int → List Nat → List Nat) (levelVal : Int)
    (fixedTime : Bool) (size : Nat) :
    ∀ (rem i cursor : Nat),
    (∀ j, j < cursor + rem * (6 + size) → s1 j = s2 j) →
    buildNoise s1 encName nameFlag method useDeflate deflate levelVal
      fixedTime size i rem cursor =
    buildNoise s2 encName nameFlag method useDeflate deflate levelVal
      fixedTime size i rem cursor := by
  intro rem
  induction rem with
  | zero => intro i cursor _; rfl
  | succ rem ih =>
    intro i cursor h
    simp only [buildNoise]
    rw [randHexChars_congr s1 s2 cursor 6 (fun j hj => h j (by
      have : cursor + 6 ≤ cursor + (rem + 1) * (6 + size) := by
        have : 6 ≤ (rem + 1) * (6 + size) := by
          calc 6 ≤ 6 + size := by omega
            _ ≤ (rem + 1) * (6 + size) := Nat.le_mul_of_pos_left _ (by omega)
        omega
      omega))]
    rw [makeNoiseEntry_congr s1 s2 (cursor + 6) _ encName nameFlag method
      useDeflate deflate levelVal fixedTime size (fun j hj => h j (by
        have : cursor + 6 + size ≤ cursor + (rem + 1) * (6 + size) := by
          have : 6 + size ≤ (rem + 1) * (6 + size) :=
            Nat.le_mul_of_pos_left _ (by omega)
          omega
        omega))]
    rcases hm : makeNoiseEntry s2 (cursor + 6)
        (junkName i (randHexChars s2 cursor 6)) encName nameFlag method
        useDeflate deflate levelVal fixedTime size with _ | p
    · rfl
    · rcases p with ⟨ent, cursor1⟩
      obtain ⟨-, hc1⟩ := makeNoiseEntry_spec _ _ _ _ _ _ _ _ _ _ _ _ _ hm
      simp only [bind, Except.bind]
      rw [ih (i + 1) cursor1 (fun j hj => h j (by
        subst hc1
        have : cursor + 6 + size + rem * (6 + size) =
            cursor + (rem + 1) * (6 + size) := by ring
        omega))]

theorem archivePlan_congr (cfg : Config) (files : List SrcFile)
    (deflate : Int → List Nat → List Nat) (s1 s2 : Nat → Nat)
    (h : ∀ i, i < cfg.NoiseFiles.toNat * (6 + cfg.NoiseSize.toNat) →
      s1 i = s2 i) :
    archivePlan cfg files deflate s1 = archivePlan cfg files deflate s2 := by
  unfold archivePlan
  rcases hmk : makeNameEncoder cfg.Encoding with e | p
  · rfl
  · rcases p with ⟨enc, flag⟩
    have hbn := buildNoise_congr s1 s2 enc flag
      (if toLowerTrim cfg.Compression = "deflate" then 8 else 0)
      (decide (toLowerTrim cfg.Compression = "deflate")) deflate
      (if toLowerTrim cfg.Strategy = "huffman" then -2 else cfg.Level)
      cfg.FixedTime cfg.NoiseSize.toNat cfg.NoiseFiles.toNat 0 0
      (fun j hj => h j (by omega))
    simp only [hmk, hbn]

theorem writeZip_congr (s1 s2 : Nat → Nat) (c : Nat) (entries : List Entry)
    (ov : Bool) (cs : Nat) (h : ∀ i, i < c + cs + 128 → s1 i = s2 i) :
    writeZip s1 c entries ov cs = writeZip s2 c entries ov cs := by
  unfold writeZip
  rcases hw : writeLocals ov [] entries with ⟨out0, ents⟩
  by_cases hcs : cs > 0
  · simp only [if_pos hcs]
    rw [streamBytes_congr s1 s2 c cs (fun i hi => h i (by omega))]
    cases ov
    · rfl
    · rw [writePoisonTail_congr s1 s2 (c + cs) (fun i hi => h i (by omega))]
  · simp only [if_neg hcs]
    cases ov
    · rfl
    · rw [writePoisonTail_congr s1 s2 c (fun i hi => h i (by omega))]

theorem writeZip_suffix (s : Nat → Nat) (c : Nat) (entries : List Entry)
    (ov : Bool) (cs : Nat) :
    ∃ body, (writeZip s c entries ov cs).1 =
      body ++ streamBytes s c cs ++
      (if ov then writePoisonTail s (c + cs) else []) := by
  rcases hw : writeLocals ov [] entries with ⟨out0, ents⟩
  simp only [writeZip, hw]
  refine ⟨out0 ++ cdirBytes ents ++
    writeEOCD ents.length ((out0 ++ cdirBytes ents).length - out0.length)
      out0.length cs, ?_⟩
  rcases Nat.eq_zero_or_pos cs with hcs | hcs
  · subst hcs
    cases ov <;> simp [streamBytes_zero]
  · cases ov <;> simp [if_pos hcs, List.append_assoc]

/-- Claim C5: seeded determinism and the fixed draw order.  The output of a
successful build depends on the random stream only through its first
`noise_files·(6 + noise_size) + comment_size + 128` bytes (two runs over
streams agreeing there — in particular two runs over the same seeded stream —
produce byte-identical archives), the noise entries consume exactly the
leading `noise_files·(6 + noise_size)` bytes in index order (entry `k`'s
name hex at offset `k·(6+noise_size)`, then its payload — see
`archivePlan_ok_spec`), and the archive ends with the comment bytes drawn at
cursor `noise_files·(6+noise_size)` followed (when `overwrite_central_dir`)
by the poison tail drawn right after them. -/
theorem claimC5 (cfg : Config) (files : List SrcFile)
    (deflate : Int → List Nat → List Nat) (s1 s2 : Nat → Nat) (out : List Nat)
    (_hseed : cfg.HasSeed = true)
    (hagree : ∀ i, i < cfg.NoiseFiles.toNat * (6 + cfg.NoiseSize.toNat) +
      cfg.CommentSize.toNat + 128 → s1 i = s2 i)
    (h : runEncryptModel cfg files deflate s1 = Except.ok out) :
    runEncryptModel cfg files deflate s2 = Except.ok out ∧
    ∃ body, out = body ++
      streamBytes s1 (cfg.NoiseFiles.toNat * (6 + cfg.NoiseSize.toNat))
        cfg.CommentSize.toNat ++
      (if cfg.OverwriteCentralDir then
        writePoisonTail s1 (cfg.NoiseFiles.toNat * (6 + cfg.NoiseSize.toNat) +
          cfg.CommentSize.toNat)
      else []) := by
  unfold runEncryptModel at h ⊢
  rcases hp : archivePlan cfg files deflate s1 with e | p <;> rw [hp] at h
  · exact absurd h (by simp)
  · rcases p with ⟨ents, cur⟩
    obtain ⟨enc, flag, realEnts, noiseEnts, -, -, -, -, hcur⟩ :=
      archivePlan_ok_spec cfg files deflate s1 ents cur hp
    have hplan2 : archivePlan cfg files deflate s2 = Except.ok (ents, cur) := by
      rw [← archivePlan_congr cfg files deflate s1 s2
        (fun i hi => hagree i (by omega))]
      exact hp
    have hwz : writeZip s1 cur ents cfg.OverwriteCentralDir
        cfg.CommentSize.toNat =
        writeZip s2 cur ents cfg.OverwriteCentralDir cfg.CommentSize.toNat :=
      writeZip_congr s1 s2 cur ents _ _ (fun i hi => hagree i (by omega))
    constructor
    · rw [hplan2]
      dsimp only
      rw [← hwz]
      exact h
    · dsimp only at h
      simp only [Except.ok.injEq] at h
      obtain ⟨body, hbody⟩ := writeZip_suffix s1 cur ents
        cfg.OverwriteCentralDir cfg.CommentSize.toNat
      refine ⟨body, ?_⟩
      rw [← h, hbody, hcur]

theorem claimC5_witness :
    c5Config.HasSeed = true ∧
    (∀ i, i < c5Config.NoiseFiles.toNat * (6 + c5Config.NoiseSize.toNat) +
      c5Config.CommentSize.toNat + 128 → (fun i : Nat => i) i = c5Stream2 i) ∧
    runEncryptModel c5Config [c6File] (fun _ l => l) (fun i => i) =
      Except.ok c5Out ∧
    (runEncryptModel c5Config [c6File] (fun _ l => l) c5Stream2 =
        Except.ok c5Out ∧
      ∃ body, c5Out = body ++
        streamBytes (fun i : Nat => i)
          (c5Config.NoiseFiles.toNat * (6 + c5Config.NoiseSize.toNat))
          c5Config.CommentSize.toNat ++
        (if c5Config.OverwriteCentralDir then
          writePoisonTail (fun i : Nat => i)
            (c5Config.NoiseFiles.toNat * (6 + c5Config.NoiseSize.toNat) +
              c5Config.CommentSize.toNat)
        else [])) :=
  ⟨rfl, by decide, by rfl,
    claimC5 c5Config [c6File] (fun _ l => l) (fun i => i) c5Stream2 c5Out
      rfl (by decide) (by rfl)⟩

end NoisyZip
